import Mathlib

/-!
Shallow embedding of the while.js core: the recursive-descent parser
(`src/linter/parser.ts`, provided as `src/unnamed/part_000`), the
tree-walking interpreter (`src/run/Interpreter.ts`), and the
programs-as-data display routine (whose implementation is not part of the
provided sources; it is modelled from the specification).

JavaScript mutation is represented by explicit state passing: the
`StateManager` of the parser becomes a `PState` value threaded through
every parsing function, and the interpreter's variable store becomes a
`Store` value threaded through execution.  Machine recursion of the
source (while-loops and mutual recursion) is represented with an explicit
fuel parameter; every theorem is stated so that it does not depend on the
behaviour at fuel exhaustion, or supplies a concrete sufficient fuel.
-/

/-- Source position, zero-based row and column (types/position.ts). -/
structure Pos where
  row : Nat
  col : Nat
deriving DecidableEq, Repr

/-- Modelled from the spec: `incrementPos` lives in types/position.ts which is
not among the provided sources.  Per section 3 of the specification,
advancing past a token increments the column by the token's printed width
and a newline resets the column (incrementing the row). -/
def incrementPos (p : Pos) (s : String) : Pos :=
  s.data.foldl
    (fun q c => if c = '\n' then { row := q.row + 1, col := 0 } else { q with col := q.col + 1 })
    p

/-- Token categories produced by the external lexer (spec section 6). -/
inductive TokenType where
  | identifier
  | operation
  | symbol
  | number
  | expression
deriving DecidableEq, Repr

/-- The printed name of a token category, as used in error messages
(`write.type` is interpolated into a diagnostic in `_readProgramOutro`). -/
def TokenType.str : TokenType → String
  | .identifier => "identifier"
  | .operation => "operation"
  | .symbol => "symbol"
  | .number => "number"
  | .expression => "expression"

/-- A token's `value` field: a string lexeme or a numeric literal. -/
inductive TokenValue where
  | str (s : String)
  | num (n : Nat)
deriving DecidableEq, Repr

/-- JavaScript `token.value === expectedString`: a numeric value never
equals a string. -/
def TokenValue.eqStr : TokenValue → String → Bool
  | .str t, s => t == s
  | .num _, _ => false

/-- The string interpolation of a token value (`${token.value}`). -/
def TokenValue.display : TokenValue → String
  | .str t => t
  | .num n => toString n

/-- A token as consumed from the lexer: `{type, value, pos}`. -/
structure Token where
  type : TokenType
  value : TokenValue
  pos : Pos
deriving DecidableEq, Repr

/-- Token lexemes (types/tokens.ts and types/extendedTokens.ts are not among
the provided sources; the lexemes are those listed in spec section 6). -/
def TKN_READ : String := "read"
def TKN_WRITE : String := "write"
def TKN_IF : String := "if"
def TKN_ELSE : String := "else"
def TKN_WHILE : String := "while"
def TKN_HD : String := "hd"
def TKN_TL : String := "tl"
def TKN_CONS : String := "cons"
def TKN_ASSGN : String := ":="
def TKN_SEP : String := ";"
def TKN_BLOCK_OPN : String := "\x7b"
def TKN_BLOCK_CLS : String := "\x7d"
def TKN_PREN_OPN : String := "("
def TKN_PREN_CLS : String := ")"
def TKN_SWITCH : String := "switch"
def TKN_CASE : String := "case"
def TKN_DEFAULT : String := "default"
def TKN_COLON : String := ":"

/-- Does the token's value equal the given lexeme (`tkn.value === s`)? -/
def Token.is (t : Token) (s : String) : Bool := t.value.eqStr s

/-- An error record `{position, message}` (utils/errorManager.ts shape). -/
structure ErrRec where
  position : Pos
  message : String
deriving DecidableEq, Repr

/-- The message built by `ErrorManager.unexpectedValue` (parser lines 66-76). -/
def unexpectedValueMsg (type : String) (actual : Option String) (expected : List String) : String :=
  let msg := "Unexpected " ++ type
  if expected.length = 0 then
    match actual with
    | some a => msg ++ ": \"" ++ a ++ "\""
    | none => msg
  else
    let msg := match actual with
      | some a => msg ++ " \"" ++ a ++ "\""
      | none => msg
    if expected.length = 1 then msg ++ ": Expected \"" ++ expected.headD "" ++ "\""
    else msg ++ ": Expected one of \"" ++ String.intercalate "\", \"" expected ++ "\""

/-- Parse segment status (parser lines 47-51). -/
inductive ParseStatus where
  | OK
  | ERROR
  | EOI
deriving DecidableEq, Repr

/-- The parser's `StateManager`: a queue wrapper around the token list that
also accumulates the error list and tracks the position of the most recent
token.  The token list field is the caller's token array (the constructor
stores the array it is given without copying). -/
structure PState where
  tokens : List Token
  errors : List ErrRec
  pos : Pos
  lastToken : Option Token
deriving DecidableEq, Repr

/-- Embedding of `new StateManager(tokens)` (parser lines 89-97). -/
def PState.init (tokens : List Token) : PState :=
  { tokens := tokens, errors := [], pos := { row := 0, col := 0 }, lastToken := none }

/-- Embedding of `ErrorManager.addError` at an explicitly given position. -/
def PState.addErrorAt (s : PState) (p : Pos) (msg : String) : PState :=
  { s with errors := s.errors ++ [{ position := p, message := msg }] }

/-- Embedding of `StateManager.addError`: record an error at the current position. -/
def PState.addError (s : PState) (msg : String) : PState :=
  s.addErrorAt s.pos msg

/-- Embedding of `StateManager.unexpectedValue` (records at the current position). -/
def PState.unexpectedValue (s : PState) (type : String) (actual : Option String)
    (expected : List String) : PState :=
  s.addErrorAt s.pos (unexpectedValueMsg type actual expected)

/-- Embedding of `StateManager.unexpectedToken` (records at the current position). -/
def PState.unexpectedToken (s : PState) (actual : Option String) (expected : List String) : PState :=
  s.unexpectedValue "token" actual expected

/-- Embedding of `ErrorManager.unexpectedToken` at an explicitly given position. -/
def PState.unexpectedTokenAt (s : PState) (p : Pos) (actual : Option String)
    (expected : List String) : PState :=
  s.addErrorAt p (unexpectedValueMsg "token" actual expected)

/-- Embedding of `StateManager.unexpectedEOI` (records at the current position). -/
def PState.unexpectedEOI (s : PState) (expected : List String) : PState :=
  s.unexpectedValue "end of input" none expected

/-- Embedding of `StateManager.unexpectedEOICustom` (parser lines 227-229). -/
def PState.unexpectedEOICustom (s : PState) (msg : String) : PState :=
  s.addError ("Unexpected end of input: " ++ msg)

/-- Embedding of `StateManager.unexpectedTokenCustom` (parser lines 231-238). -/
def PState.unexpectedTokenCustom (s : PState) (actual : Option String) (msg : String) : PState :=
  match actual with
  | some a => s.addError ("Unexpected token \"" ++ a ++ "\": " ++ msg)
  | none => s.addError ("Unexpected token: " ++ msg)

/-- Embedding of `StateManager._next` (parser lines 246-270): pop the next token from the
queue, updating the position counter; at end of input, advance the position
past the last consumed token instead. -/
def PState.nextTok (s : PState) : Option Token × PState :=
  match s.tokens with
  | first :: rest =>
    (some first, { s with tokens := rest, pos := first.pos, lastToken := some first })
  | [] =>
    let p := match s.lastToken with
      | none => incrementPos s.pos ""
      | some t => incrementPos s.pos t.value.display
    (none, { s with pos := p })

/-- Embedding of `StateManager.peek` (parser lines 156-159). -/
def PState.peek (s : PState) : Option Token := s.tokens.head?

/-- Embedding of `StateManager.expect` (parser lines 124-142): pop the next token and
validate it against the expected lexemes (empty list accepts any token). -/
def PState.expect (s : PState) (expected : List String) : (ParseStatus × Option Token) × PState :=
  let (first, s) := s.nextTok
  match first with
  | none => ((.EOI, none), s.unexpectedEOI expected)
  | some first =>
    if expected.length = 0 then ((.OK, some first), s)
    else if expected.any (fun e => first.value.eqStr e) then ((.OK, some first), s)
    else ((.ERROR, some first), s.unexpectedToken (some first.value.display) expected)

/-- The recursion of `StateManager.consumeUntil`, indexed by a fuel that
bounds the loop iterations (each iteration pops one token, so the length
of the token list is always enough fuel). -/
def consumeUntilGo : Nat → PState → List String → List Token × PState
  | 0, s, _ => ([], s)
  | fuel + 1, s, expected =>
    match s.tokens with
    | [] => ([], s)
    | next :: rest =>
      if expected.any (fun e => next.value.eqStr e) then ([], s)
      else
        let s' : PState := { s with tokens := rest, pos := next.pos, lastToken := some next }
        let (res, s'') := consumeUntilGo fuel s' expected
        (next :: res, s'')

/-- Embedding of `StateManager.consumeUntil` (parser lines 167-177): drain tokens until
the next token is one of the expected lexemes or the input is exhausted;
the terminator is not consumed. -/
def PState.consumeUntil (s : PState) (expected : List String) : List Token × PState :=
  consumeUntilGo s.tokens.length s expected

/-! ## AST model

The TypeScript AST declares, for every node variant, a complete form and a
"PARTIAL" form whose child slots may be `null` and whose `complete` flag may
be `false`.  The embedding uses the superset shape for every variant: child
slots are `Option`-valued and `complete` is an explicit `Bool` field, so a
node of the complete form is the same value with `complete := true` and all
slots filled. -/

/-- The binary tree type of while.js (`BinaryTree` in types/Trees.ts):
`null` or a pair `{left, right}`. -/
inductive BinaryTree where
  | nil
  | node (left right : BinaryTree)
deriving DecidableEq, Repr

/-- Embedding of `_numToTree` (parser lines 277-290): convert a number to its binary
tree representation by repeatedly stacking a layer `{left: nil, right: t}`. -/
def numToTree (n : Nat) : BinaryTree :=
  match n with
  | 0 => .nil
  | k + 1 => .node .nil (numToTree k)

/-- An expression node (`AST_EXPR` / `AST_EXPR_PARTIAL`).
An `identifier` node is the identifier token itself; a `tree` node holds
the binary tree decoded from a numeric literal.  The `equal` variant is
declared by the AST types but never produced by the parser. -/
inductive Expr where
  | identifier (tok : Token)
  | tree (t : BinaryTree)
  | operation (complete : Bool) (op : Token) (args : List (Option Expr))
  | equal (complete : Bool) (args : List (Option Expr))

mutual

/-- A switch `case E: stmts` clause (`AST_SWITCH_CASE` and its degraded
form): condition expression and statement list. -/
inductive SwitchCase where
  | mk (complete : Bool) (cond : Option Expr) (body : List (Option Cmd))

/-- A switch `default: stmts` clause (`AST_SWITCH_DEFAULT` and its degraded
form). -/
inductive SwitchDefault where
  | mk (complete : Bool) (body : List (Option Cmd))

/-- A command node (`AST_CMD` / `AST_CMD_PARTIAL`): assignment,
conditional, loop, or switch. -/
inductive Cmd where
  | assign (complete : Bool) (ident : Token) (arg : Option Expr)
  | cond (complete : Bool) (condition : Option Expr)
      (ifB : List (Option Cmd)) (elseB : List (Option Cmd))
  | loop (complete : Bool) (condition : Option Expr) (body : List (Option Cmd))
  | switchC (complete : Bool) (condition : Option Expr)
      (cases : List SwitchCase) (dflt : SwitchDefault)

end

/-- A program node (`AST_PROG` / `AST_PROG_PARTIAL`). -/
structure Prog where
  complete : Bool
  name : Option Token
  input : Option Token
  output : Option Token
  body : List (Option Cmd)


/-- The argument-completeness check used at parser lines 340, 518, 662 and
712: `e.type === 'identifier' || e.type === 'tree' || e.complete`.  (For an
`equal` node the first two disjuncts are false and `e.complete` is its
flag, so one predicate covers every occurrence of the pattern.) -/
def Expr.okArg : Expr → Bool
  | .identifier _ => true
  | .tree _ => true
  | .operation c _ _ => c
  | .equal c _ => c

/-- The incompleteness check of the `cons` branch (parser line 362):
`(e.type === 'operation' || e.type === 'equal') && !e.complete`. -/
def Expr.badOp : Expr → Bool
  | .operation c _ _ => !c
  | .equal c _ => !c
  | _ => false

/-- The check `cond !== null && (cond.type === 'identifier' || cond.type === 'tree'
|| cond.complete)` (parser line 662). -/
def condOk : Option Expr → Bool
  | some c => c.okArg
  | none => false

/-- A numeric token value as the number handed to `_numToTree`; the lexer
only attaches numeric values to `number`-typed tokens. -/
def TokenValue.toNum : TokenValue → Nat
  | .num n => n
  | .str _ => 0

mutual

/-- Embedding of `_readExpr` (parser lines 305-397): read one expression
(parenthesised group, `hd`/`tl`/`cons` operation, identifier, or — outside
pure mode — numeric literal) from the token list.  `none` plays the role
of the source's `null` result.  The first argument is recursion fuel (the
source recurses on the shrinking token list). -/
def readExpr : Nat → Bool → PState → Option Expr × PState
  | 0, _, s => (none, s)
  | fuel + 1, po, s =>
    let (first, s) := s.nextTok
    match first with
    | none => (none, s)
    | some first =>
      if first.is TKN_PREN_OPN then
        let (expr, s) := readExpr fuel po s
        let (close, s) := s.nextTok
        let s := match close with
          | none => s.unexpectedEOI [TKN_PREN_CLS]
          | some close =>
            if close.is TKN_PREN_CLS then s
            else s.unexpectedToken (some close.value.display) [TKN_PREN_CLS]
        (expr, s)
      else if first.type = .operation then
        if first.is TKN_HD || first.is TKN_TL then
          let (arg, s) := readExpr fuel po s
          match arg with
          | none => (some (.operation false first [none]), s)
          | some a => (some (.operation a.okArg first [some a]), s)
        else
          let (left, s) := readExpr fuel po s
          let (right, s) := readExpr fuel po s
          let bad := left.isNone || right.isNone ||
            (left.map Expr.badOp).getD false || (right.map Expr.badOp).getD false
          (some (.operation (!bad) first [left, right]), s)
      else if first.type = .identifier then
        (some (.identifier first), s)
      else if !po ∧ first.type = .number then
        (some (.tree (numToTree first.value.toNum)), s)
      else
        (none, s.unexpectedTokenCustom (some first.value.display)
          "Expected an expression or an identifier")

/-- Embedding of `_readElse` (parser lines 408-423): an `else` block, or `[OK, []]`
when the next token is not `else` (treated as `else {}`). -/
def readElse : Nat → Bool → PState → (ParseStatus × List (Option Cmd)) × PState
  | 0, _, s => ((.EOI, []), s)
  | fuel + 1, po, s =>
    match s.peek with
    | none => ((.EOI, []), s.unexpectedEOI [TKN_BLOCK_CLS])
    | some peek =>
      if peek.is TKN_ELSE then
        let (_, s) := s.nextTok
        readBlock fuel po s
      else ((.OK, []), s)

/-- The `while (true)` loop of `_readStatementList` (parser lines 438-468),
carrying the accumulated statements and the running status. -/
def readSLLoop : Nat → Bool → PState → List (Option Cmd) → ParseStatus →
    (ParseStatus × List (Option Cmd)) × PState
  | 0, _, s, res, status => ((status, res), s)
  | fuel + 1, po, s, res, status =>
    let ((stmtStatus, stmt), s) := readStmt fuel po s
    let res := res ++ [stmt]
    if stmtStatus = .EOI then ((.EOI, res), s)
    else
      let (s, status) :=
        if stmtStatus = .ERROR then ((s.consumeUntil [TKN_BLOCK_CLS, TKN_SEP]).2, .ERROR)
        else (s, status)
      match s.peek with
      | none =>
        let (_, s) := s.nextTok
        ((.EOI, res), s.unexpectedEOI [TKN_SEP, TKN_BLOCK_CLS])
      | some next =>
        if next.is TKN_SEP then
          let (_, s) := s.nextTok
          readSLLoop fuel po s res status
        else ((status, res), s)

/-- Embedding of `_readStatementList` (parser lines 435-471): a semicolon-separated
statement list with per-statement error recovery. -/
def readStatementList : Nat → Bool → PState → (ParseStatus × List (Option Cmd)) × PState
  | 0, _, s => ((.EOI, []), s)
  | fuel + 1, po, s => readSLLoop fuel po s [] .OK

/-- Embedding of `_readCase` (parser lines 483-548): one `case`/`default` clause of a
switch.  The result carries a case (`Sum.inl`) or a default (`Sum.inr`). -/
def readCase : Nat → Bool → PState →
    (ParseStatus × Option (SwitchCase ⊕ SwitchDefault)) × PState
  | 0, _, s => ((.EOI, none), s)
  | fuel + 1, po, s =>
    let (caseTkn, s) := s.nextTok
    match caseTkn with
    | none => ((.EOI, none), s)
    | some caseTkn =>
      if caseTkn.is TKN_DEFAULT then
        let (_, s) := s.expect [TKN_COLON]
        let ((bodyStatus, body), s) := readStatementList fuel po s
        if bodyStatus ≠ .OK then ((bodyStatus, some (.inr (.mk false body))), s)
        else ((bodyStatus, some (.inr (.mk true body))), s)
      else if caseTkn.is TKN_CASE then
        let (expr, s) := readExpr fuel po s
        match expr with
        | none => ((.EOI, none), s)
        | some expr =>
          let status : ParseStatus := if !expr.okArg then .ERROR else .OK
          let (_, s) := s.expect [TKN_COLON]
          let ((bodyStatus, body), s) := readStatementList fuel po s
          if bodyStatus = .OK ∧ status = .OK then
            ((bodyStatus, some (.inl (.mk true (some expr) body))), s)
          else ((bodyStatus, some (.inl (.mk false (some expr) body))), s)
      else
        ((.ERROR, none), s.unexpectedToken (some caseTkn.value.display) [TKN_CASE, TKN_DEFAULT])

/-- The `while` loop of `_readSwitch` (parser lines 573-599), reading
`case`/`default` clauses until the closing brace. -/
def readSwitchLoop : Nat → Bool → PState → List SwitchCase → Option SwitchDefault →
    ParseStatus → (ParseStatus × List SwitchCase × Option SwitchDefault) × PState
  | 0, _, s, cases, dflt, status => ((status, cases, dflt), s)
  | fuel + 1, po, s, cases, dflt, status =>
    match s.peek with
    | none => ((status, cases, dflt), s)
    | some next =>
      if !(next.is TKN_DEFAULT) ∧ !(next.is TKN_CASE) then ((status, cases, dflt), s)
      else
        let s := if dflt.isSome then s.unexpectedToken (some next.value.display) [TKN_BLOCK_CLS]
          else s
        let ((caseStatus, body), s) := readCase fuel po s
        let status := if status ≠ .OK then caseStatus else status
        if status = .EOI ∨ body.isNone then ((status, cases, dflt), s)
        else
          match body with
          | some (.inl c) => readSwitchLoop fuel po s (cases ++ [c]) dflt status
          | some (.inr d) => readSwitchLoop fuel po s cases (some d) status
          | none => ((status, cases, dflt), s)

/-- Embedding of `_readSwitch` (parser lines 560-636): a switch statement body (the
`switch` token itself has already been consumed). -/
def readSwitch : Nat → Bool → PState → (ParseStatus × Option Cmd) × PState
  | 0, _, s => ((.EOI, none), s)
  | fuel + 1, po, s =>
    let (inpExpr, s) := readExpr fuel po s
    let ((status, _), s) := s.expect [TKN_BLOCK_OPN]
    if status = .EOI then ((.EOI, none), s)
    else
      let ((status, cases, dflt), s) := readSwitchLoop fuel po s [] none status
      let dflt := dflt.getD (.mk true [])
      let ((sCls, _), s) := s.expect [TKN_BLOCK_CLS]
      let status := if sCls ≠ .OK then sCls else status
      if status = .OK then ((.OK, some (.switchC true inpExpr cases dflt)), s)
      else ((status, some (.switchC false inpExpr cases dflt)), s)

/-- Embedding of `_readStmt` (parser lines 647-740): dispatch on the leading token to a
conditional, loop, assignment, or (outside pure mode) switch statement. -/
def readStmt : Nat → Bool → PState → (ParseStatus × Option Cmd) × PState
  | 0, _, s => ((.EOI, none), s)
  | fuel + 1, po, s =>
    let (first, s) := s.nextTok
    match first with
    | none => ((.EOI, none), s)
    | some first =>
      if first.is TKN_IF then
        let (cond, s) := readExpr fuel po s
        let ((ifState, ifBlock), s) := readBlock fuel po s
        let ((elseState, elseBlock), s) := readElse fuel po s
        if condOk cond ∧ ifState = .OK ∧ elseState = .OK then
          ((.OK, some (.cond true cond ifBlock elseBlock)), s)
        else ((.ERROR, some (.cond false cond ifBlock elseBlock)), s)
      else if first.is TKN_WHILE then
        let (cond, s) := readExpr fuel po s
        let ((bodyState, body), s) := readBlock fuel po s
        if bodyState = .OK ∧ cond.isSome then
          ((.OK, some (.loop true cond body)), s)
        else
          ((if bodyState = .EOI then .EOI else .ERROR, some (.loop false cond body)), s)
      else if first.type = .identifier then
        let (_, s) := s.expect [TKN_ASSGN]
        let (val, s) := readExpr fuel po s
        if condOk val then ((.OK, some (.assign true first val)), s)
        else ((.ERROR, some (.assign false first val)), s)
      else if !po ∧ first.is TKN_SWITCH then
        readSwitch fuel po s
      else
        ((.ERROR, none),
          s.unexpectedTokenCustom none ("Expected " ++ TKN_IF ++ " " ++ TKN_WHILE ++
            " or an assignment statement"))

/-- Embedding of `_readBlock` (parser lines 752-780): `{`, then an empty body or a
statement list, then `}`. -/
def readBlock : Nat → Bool → PState → (ParseStatus × List (Option Cmd)) × PState
  | 0, _, s => ((.EOI, []), s)
  | fuel + 1, po, s =>
    let (_, s) := s.expect [TKN_BLOCK_OPN]
    match s.peek with
    | none =>
      let (_, s) := s.nextTok
      ((.EOI, []), s.unexpectedEOI [TKN_BLOCK_CLS])
    | some first =>
      if first.is TKN_BLOCK_CLS then
        let (_, s) := s.nextTok
        ((.OK, []), s)
      else
        let ((status, res), s) := readStatementList fuel po s
        if status = .EOI then ((.EOI, res), s)
        else
          let ((clsStat, _), s) := s.expect [TKN_BLOCK_CLS]
          if clsStat = .EOI then ((.EOI, res), s)
          else if status = .OK ∧ clsStat = .OK then ((.OK, res), s)
          else ((.ERROR, res), s)

end

/-- The `_readInput` helper of `_readProgramIntro` (parser lines 791-809):
read the input variable after `read`. -/
def readInput (s : PState) : (ParseStatus × Option Token) × PState :=
  match s.peek with
  | none =>
    let (_, s) := s.nextTok
    ((.EOI, none), s.unexpectedEOICustom "Missing input variable")
  | some input =>
    if input.is TKN_BLOCK_OPN then
      ((.ERROR, none), s.addErrorAt input.pos
        ("Unexpected token \"" ++ input.value.display ++ "\": Missing input variable"))
    else if input.type = .identifier then
      let (_, s) := s.nextTok
      ((.OK, some input), s)
    else
      let (_, s) := s.nextTok
      ((.ERROR, none), s)

/-- The `_readRead` helper of `_readProgramIntro` (parser lines 811-834):
read the `read` keyword and then the input variable. -/
def readRead (s : PState) : (ParseStatus × Option Token) × PState :=
  match s.peek with
  | none =>
    let (_, s) := s.nextTok
    ((.EOI, none), s.unexpectedEOI [TKN_READ])
  | some read =>
    if read.is TKN_READ then
      let (_, s) := s.nextTok
      readInput s
    else if read.is TKN_BLOCK_OPN then
      ((.ERROR, none), s.unexpectedTokenAt read.pos none [TKN_READ])
    else
      let (_, s) := s.nextTok
      let s := s.unexpectedToken (some read.value.display) [TKN_READ]
      ((.ERROR, if read.type = .identifier then some read else none), s)

/-- Embedding of `_readProgramIntro` (parser lines 790-868): `<name> read <input>`, with
the three degraded-opening cases (missing name, missing `read`, program
opening directly with `{`). -/
def readProgramIntro (s : PState) : (ParseStatus × Option Token × Option Token) × PState :=
  match s.peek with
  | none =>
    let (_, s) := s.nextTok
    ((.EOI, none, none), s.unexpectedEOICustom "Missing program name")
  | some name =>
    if name.is TKN_READ then
      let (_, s) := s.nextTok
      let s := s.addErrorAt name.pos "Unexpected token: Missing program name"
      let ((inputStatus, input), s) := readInput s
      if inputStatus = .OK then ((.OK, none, input), s)
      else ((.ERROR, none, input), s)
    else if name.is TKN_BLOCK_OPN then
      let s := s.addErrorAt name.pos "Unexpected token: Missing program name"
      let s := s.unexpectedTokenAt name.pos none [TKN_READ]
      ((.ERROR, none, none), s)
    else
      let (_, s) := s.nextTok
      let ((inputStatus, inputVar), s) := readRead s
      if name.type ≠ .identifier then ((.ERROR, none, inputVar), s)
      else if inputStatus = .OK then ((.OK, some name, inputVar), s)
      else ((inputStatus, some name, inputVar), s)

/-- Embedding of `_readProgramOutro` (parser lines 878-914): `write <output>`, accepting
a bare output identifier with a diagnostic when `write` is missing. -/
def readProgramOutro (s : PState) : (ParseStatus × Option Token) × PState :=
  let (write, s) := s.nextTok
  match write with
  | none => ((.EOI, none), s.unexpectedEOI [TKN_WRITE])
  | some write =>
    let (err, output, s) :=
      if write.is TKN_WRITE then (ParseStatus.OK, (none : Option Token), s)
      else if write.type = .identifier then
        (.ERROR, some write, s.unexpectedToken (some write.value.display) [TKN_WRITE])
      else
        (.ERROR, none, s.unexpectedValue write.type.str (some write.value.display) [TKN_WRITE])
    let (outputVar, s) := s.nextTok
    match outputVar with
    | none => ((.EOI, output), s.unexpectedEOI ["identifier"])
    | some outputVar =>
      if outputVar.type = .identifier then ((err, some outputVar), s)
      else
        ((.ERROR, output),
          s.unexpectedTokenCustom (some outputVar.value.display) " Expected an identifier")

/-- Embedding of `_readProgram` (parser lines 924-970): the root
`<name> read <in> { body } write <out>` structure; the produced node is
complete exactly when all fields are present and all statuses are `OK`. -/
def readProgram (fuel : Nat) (po : Bool) (s : PState) : Prog × PState :=
  let ((progInStatus, name, input), s) := readProgramIntro s
  let (bodyStatus, body, outputStatus, output, s) :=
    if progInStatus ≠ ParseStatus.EOI then
      let ((bodyStatus, body), s) := readBlock fuel po s
      if bodyStatus ≠ ParseStatus.EOI then
        let ((outputStatus, output), s) := readProgramOutro s
        let (final, s) := s.nextTok
        let s := match final with
          | some final =>
            s.unexpectedTokenCustom (some final.value.display) "Expected end of input"
          | none => s
        (bodyStatus, body, outputStatus, output, s)
      else (bodyStatus, body, ParseStatus.OK, none, s)
    else (ParseStatus.OK, [], ParseStatus.OK, none, s)
  if name.isSome ∧ input.isSome ∧ output.isSome ∧ bodyStatus = .OK ∧
      progInStatus = .OK ∧ outputStatus = .OK then
    ({ complete := true, name := name, input := input, output := output, body := body }, s)
  else
    ({ complete := false, name := name, input := input, output := output, body := body }, s)

/-- Options record `ParserOpts`: configuration options accepted by the parser entry point. -/
structure ParserOpts where
  pureOnly : Bool

/-- The fuel handed to the parser; recursion depth and loop iterations are
both bounded by the token count, so this is ample for every complete parse
(the universally quantified theorems below hold for every fuel value). -/
def parserFuel (tokens : List Token) : Nat := 4 * tokens.length + 16

/-- The `parser` entry point (parser lines 978-990), exposing the final
`StateManager` so that the fate of the caller's token array (which the
state manager wraps without copying) stays observable. -/
def parserRun (tokens : List Token) (props : Option ParserOpts) : Prog × PState :=
  let po := (props.map (fun p => p.pureOnly)).getD false
  readProgram (parserFuel tokens) po (PState.init tokens)

/-- The `parser` entry point as the caller sees its return value: the
program AST and the error list. -/
def parser (tokens : List Token) (props : Option ParserOpts) : Prog × List ErrRec :=
  ((parserRun tokens props).1, (parserRun tokens props).2.errors)

/-- Build an identifier token at row 0 and the given column. -/
def idTok (s : String) (col : Nat) : Token :=
  { type := .identifier, value := .str s, pos := { row := 0, col := col } }

/-- Build a symbol/keyword token at row 0 and the given column. -/
def symTok (s : String) (col : Nat) : Token :=
  { type := .symbol, value := .str s, pos := { row := 0, col := col } }

/-- Build an operation token (`hd`/`tl`/`cons`) at row 0 and the given
column. -/
def opTok (s : String) (col : Nat) : Token :=
  { type := .operation, value := .str s, pos := { row := 0, col := col } }

/-- Lay out a list of position-less tokens on row 0, one column each, as a
lexer would for a one-line program of one-character tokens. -/
def layout (mk : List (Nat → Token)) : List Token :=
  (mk.enum).map (fun p => p.2 p.1)

/-! ## Interpreter (src/run/Interpreter.ts)

The interpreter's variable store (`Map<string, BinaryTree>`) is embedded
as an association list keyed by token values (JavaScript `Map` keys; the
identifiers produced by the lexer carry string values).  The
command stack and expression stack of the source are embedded as lists
whose head is the top of the stack; the `while` loops become fuel-indexed
recursion, and every runtime `throw` of the source becomes `none`. -/

/-- The interpreter's variable store. -/
def Store := List (TokenValue × BinaryTree)
deriving DecidableEq, Repr

/-- Embedding of `Map.set`: overwrite the binding if the key is present, append it
otherwise. -/
def Store.set : Store → TokenValue → BinaryTree → Store
  | [], k, v => [(k, v)]
  | (k', v') :: rest, k, v =>
    if k' = k then (k, v) :: rest else (k', v') :: Store.set rest k v

/-- Embedding of `Map.get`: the binding for the key, if any. -/
def Store.get : Store → TokenValue → Option BinaryTree
  | [], _ => none
  | (k', v') :: rest, k => if k' = k then some v' else Store.get rest k

/-- The empty store (`new Map()`). -/
def Store.empty : Store := []

/-- An argument slot of a partially evaluated expression: either an
evaluated `Literal` (`{type: 'literal', tree}`) or a yet-unevaluated AST
expression slot (which may be the `null` of a degraded AST). -/
inductive EvalArg where
  | lit (t : BinaryTree)
  | ast (e : Option Expr)

/-- A frame of `_evalExpr`'s expression stack (`EXEC_AST_EXPR`): the root
frame, a shallow-copied operation with its own argument list, or a copied
leaf.  A copied `tree` or `equal` node is represented so that popping it
reproduces the source's "Unknown expression token" failure. -/
inductive ExecExpr where
  | root (args : List EvalArg)
  | opE (op : Token) (args : List EvalArg)
  | identE (tok : Token)
  | treeE (t : BinaryTree)
  | equalE

/-- Embedding of `_copyExpr` (Interpreter lines 165-172): shallow-copy an expression,
recreating the argument list (its elements still reference the original
child nodes). -/
def copyExpr : Expr → ExecExpr
  | .identifier tok => .identE tok
  | .tree t => .treeE t
  | .operation _ op args => .opE op (args.map EvalArg.ast)
  | .equal _ _ => .equalE

/-- Scan an argument list for the first non-literal entry, as the `for`
loops of `_evalExpr` do: `none` when all entries are literals, `some none`
when a `null` slot is reached (the source crashes reading `null.type`),
and `some (some e)` for the first AST argument. -/
def firstNonLit : List EvalArg → Option (Option Expr)
  | [] => none
  | .lit _ :: rest => firstNonLit rest
  | .ast none :: _ => some none
  | .ast (some e) :: _ => some (some e)

/-- The operation application of `_evalExpr` (Interpreter lines 198-221):
`cons` pairs its two arguments, `hd`/`tl` project (yielding `nil` on
`nil`), any other operation value throws. -/
def applyOp (opv : TokenValue) (args : List EvalArg) : Option BinaryTree :=
  if opv.eqStr TKN_CONS then
    match args.get? 0, args.get? 1 with
    | some (.lit l), some (.lit r) => some (.node l r)
    | _, _ => none
  else if opv.eqStr TKN_HD then
    match args.get? 0 with
    | some (.lit t) => some (match t with | .nil => .nil | .node l _ => l)
    | _ => none
  else if opv.eqStr TKN_TL then
    match args.get? 0 with
    | some (.lit t) => some (match t with | .nil => .nil | .node _ r => r)
    | _ => none
  else none

/-- Replace the first non-literal entry of an argument list with a literal
(`_replaceArgWithLiteral`'s scan, Interpreter lines 150-161); a `null`
entry reached during the scan crashes the source, and a list with no
non-literal entry is returned unchanged. -/
def replaceFirst : List EvalArg → BinaryTree → Option (List EvalArg)
  | [], _ => some []
  | .lit t :: rest, v => (replaceFirst rest v).map (fun r => .lit t :: r)
  | .ast none :: _, _ => none
  | .ast (some _) :: rest, v => some (.lit v :: rest)

/-- Embedding of `_replaceArgWithLiteral` (Interpreter lines 142-164): pop the parent
frame from the stack, replace its first non-literal argument with the
value, and push it back.  Popping a frame without an argument list (or an
empty stack) crashes the source. -/
def replaceArg (v : BinaryTree) : List ExecExpr → Option (List ExecExpr)
  | .opE op args :: rest => (replaceFirst args v).map (fun a => .opE op a :: rest)
  | .root args :: rest => (replaceFirst args v).map (fun a => .root a :: rest)
  | _ => none

/-- The `while (exprStack.length > 1)` loop of `_evalExpr` (Interpreter
lines 179-235): pop the top frame; an operation either pushes its first
unevaluated argument (shallow-copied) back on top of itself or, when all
arguments are literals, applies and stores the result into its parent; an
identifier resolves through the store (`nil` hard-coded, unset names
defaulting to `nil`). -/
def evalLoop (store : Store) : Nat → List ExecExpr → Option (List ExecExpr)
  | 0, _ => none
  | fuel + 1, stack =>
    if stack.length ≤ 1 then some stack
    else
      match stack with
      | [] => some []
      | curr :: rest =>
        match curr with
        | .opE op args =>
          match firstNonLit args with
          | some none => none
          | some (some e) => evalLoop store fuel (copyExpr e :: .opE op args :: rest)
          | none =>
            match applyOp op.value args with
            | none => none
            | some val =>
              match replaceArg val rest with
              | none => none
              | some rest' => evalLoop store fuel rest'
        | .identE tok =>
          let v := if tok.value.eqStr "nil" then BinaryTree.nil
            else (store.get tok.value).getD .nil
          match replaceArg v rest with
          | none => none
          | some rest' => evalLoop store fuel rest'
        | .root _ => none
        | .treeE _ => none
        | .equalE => none

mutual

/-- The number of slots and nodes of an expression tree (used only to
compute an ample evaluation fuel). -/
def exprSize : Expr → Nat
  | .identifier _ => 1
  | .tree _ => 1
  | .operation _ _ args => 1 + exprArgsSize args
  | .equal _ args => 1 + exprArgsSize args

/-- The accumulated size of an argument list. -/
def exprArgsSize : List (Option Expr) → Nat
  | [] => 0
  | none :: rest => 1 + exprArgsSize rest
  | some e :: rest => 1 + exprSize e + exprArgsSize rest

end

/-- The evaluation-loop fuel used for an expression: each loop iteration
either copies a strict subterm onto the stack or removes a frame, so the
iteration count is far below this bound. -/
def evalFuel (e : Expr) : Nat := 2 * exprSize e + 4

/-- Embedding of `_evalExpr` (Interpreter lines 110-236): evaluate an expression
against the store with an explicit expression stack seeded with the root
frame (holding the original expression as its sole argument slot) and a
shallow copy of the expression. -/
def evalExpr (store : Store) (e : Expr) : Option BinaryTree :=
  match evalLoop store (evalFuel e) [copyExpr e, .root [.ast (some e)]] with
  | none => none
  | some stack =>
    match stack with
    | [.root (.lit t :: _)] => some t
    | _ => none

/-- A frame of the interpreter's command stack (`EXEC_AST_CMD`): an AST
command (possibly the `null` slot of a degraded AST) or a block frame
holding the commands that remain to execute. -/
inductive Frame where
  | cmd (c : Option Cmd)
  | block (body : List (Option Cmd))

/-- The `while (commandStack.length > 0)` loop of `Interpreter.run`
(Interpreter lines 56-101): assignments write the store; a conditional
pushes its taken branch as a block; a loop whose condition is non-`nil`
pushes itself back and then its body block (so the body runs first); a
block pushes its remainder and then its first command.  A `switch` or a
`null` command reproduces the source's `throw`. -/
def runLoop : Nat → List Frame → Store → Option Store
  | 0, _, _ => none
  | fuel + 1, stack, store =>
    match stack with
    | [] => some store
    | f :: rest =>
      match f with
      | .cmd none => none
      | .cmd (some c) =>
        match c with
        | .assign _ ident arg =>
          match arg with
          | none => none
          | some a =>
            match evalExpr store a with
            | none => none
            | some val => runLoop fuel rest (store.set ident.value val)
        | .cond _ condition ifB elseB =>
          match condition with
          | none => none
          | some ce =>
            match evalExpr store ce with
            | none => none
            | some v =>
              if v ≠ .nil then runLoop fuel (.block ifB :: rest) store
              else runLoop fuel (.block elseB :: rest) store
        | .loop cp condition body =>
          match condition with
          | none => none
          | some ce =>
            match evalExpr store ce with
            | none => none
            | some v =>
              if v ≠ .nil then
                runLoop fuel (.block body :: .cmd (some (.loop cp condition body)) :: rest) store
              else runLoop fuel rest store
        | .switchC _ _ _ _ => none
      | .block body =>
        match body with
        | [] => runLoop fuel rest store
        | first :: more =>
          let rest' := if more.isEmpty then rest else Frame.block more :: rest
          runLoop fuel (.cmd first :: rest') store

/-- An `Interpreter` instance: the program AST and the variable store
(the mutable `_store` field of the class). -/
structure Interp where
  prog : Prog
  store : Store

/-- The `Interpreter` constructor (Interpreter lines 26-32): remember the
program and initialise the store with the input variable's binding.  A
program with no input identifier crashes the constructor. -/
def Interp.new (p : Prog) (input : BinaryTree) : Option Interp :=
  p.input.map (fun itok => { prog := p, store := Store.empty.set itok.value input })

/-- Embedding of `Interpreter.run` (Interpreter lines 39-104): execute the command
stack seeded with a block holding (a copy of) the program body, against
the instance's current store, then return the output variable's binding
(defaulting to `nil`) together with the instance as `run` leaves it. -/
def Interp.run (fuel : Nat) (i : Interp) : Option (BinaryTree × Interp) :=
  match runLoop fuel [.block i.prog.body] i.store with
  | none => none
  | some store' =>
    match i.prog.output with
    | none => none
    | some o => some ((store'.get o.value).getD .nil, { i with store := store' })

/-! ## Completeness of every node

The spec's completeness invariant quantifies over all nodes of the AST:
these predicates compute whether every node of a subtree carries
`complete = true` (a missing — `null` — child slot counts as failing, as in
the spec's notion of a complete subtree). -/

mutual

/-- Every node of an expression subtree is complete. -/
def exprAllComplete : Expr → Bool
  | .identifier _ => true
  | .tree _ => true
  | .operation c _ args => c && exprArgsAll args
  | .equal c args => c && exprArgsAll args

/-- Every node of every present entry of an argument list is complete,
and no entry is missing. -/
def exprArgsAll : List (Option Expr) → Bool
  | [] => true
  | none :: _ => false
  | some e :: rest => exprAllComplete e && exprArgsAll rest

end

/-- Every node of a present expression slot is complete. -/
def optExprAll : Option Expr → Bool
  | some e => exprAllComplete e
  | none => false

mutual

/-- Every node of a command subtree is complete. -/
def cmdAllComplete : Cmd → Bool
  | .assign c _ arg => c && optExprAll arg
  | .cond c condition ifB elseB =>
    c && optExprAll condition && cmdListAll ifB && cmdListAll elseB
  | .loop c condition body => c && optExprAll condition && cmdListAll body
  | .switchC c condition cases dflt =>
    c && optExprAll condition && caseListAll cases &&
      (match dflt with | .mk dc dbody => dc && cmdListAll dbody)

/-- Every node of every present entry of a command list is complete, and
no entry is missing. -/
def cmdListAll : List (Option Cmd) → Bool
  | [] => true
  | none :: _ => false
  | some c :: rest => cmdAllComplete c && cmdListAll rest

/-- Every node of every switch case is complete. -/
def caseListAll : List SwitchCase → Bool
  | [] => true
  | .mk cc cond body :: rest =>
    cc && optExprAll cond && cmdListAll body && caseListAll rest

end

/-- Every node of the program AST — the root included — is complete. -/
def progAllComplete (p : Prog) : Bool := p.complete && cmdListAll p.body

/-! ## Heap model of `_evalExpr` (for the cloning/no-mutation property)

The pure embedding above is adequate only because the source clones every
argument list it pushes; that cloning discipline is itself the subject of
a claim.  To settle it, this second embedding of `_evalExpr` makes the
JavaScript argument arrays explicit heap cells: every `args` array of the
parser-produced AST and every array created by `_copyExpr` is a cell, and
`_replaceArgWithLiteral`'s in-place write becomes a heap update.  The AST
is loaded into an initial heap; evaluation may only allocate fresh cells
and write to cells owned by stack frames, and the theorem below shows the
AST's cells are never written. -/

/-- An element of an argument array: a `Literal`, a reference to an AST
node (operations and `equal` nodes point at the heap cell holding their
argument array), or a `null` entry. -/
inductive HElem where
  | lit (t : BinaryTree)
  | identH (tok : Token)
  | treeH (t : BinaryTree)
  | opH (op : Token) (cell : Nat)
  | equalH (cell : Nat)
  | missing

/-- The heap: the argument arrays, addressed by index. -/
abbrev Heap := List (List HElem)

mutual

/-- Load an AST expression into the heap, allocating one cell per
argument array, in the order JavaScript object construction created
them (children before their parent). -/
def loadExpr : Expr → Heap → HElem × Heap
  | .identifier tok, h => (.identH tok, h)
  | .tree t, h => (.treeH t, h)
  | .operation _ op args, h =>
    let (elems, h') := loadArgs args h
    (.opH op h'.length, h' ++ [elems])
  | .equal _ args, h =>
    let (elems, h') := loadArgs args h
    (.equalH h'.length, h' ++ [elems])

/-- Load each entry of an argument list. -/
def loadArgs : List (Option Expr) → Heap → List HElem × Heap
  | [], h => ([], h)
  | none :: rest, h =>
    let (es, h') := loadArgs rest h
    (.missing :: es, h')
  | some e :: rest, h =>
    let (el, h') := loadExpr e h
    let (es, h'') := loadArgs rest h'
    (el :: es, h'')

end

/-- A frame of the heap-model expression stack.  `opF` and `rootH` carry
the heap cell of their argument array. -/
inductive HFrame where
  | rootH (cell : Nat)
  | opF (op : Token) (cell : Nat)
  | identF (tok : Token)
  | treeF (t : BinaryTree)
  | equalF (cell : Nat)
  | litF (t : BinaryTree)
  | nullF

/-- Embedding of `_copyExpr` in the heap model: `{...expr}` plus `copy.args =
[...copy.args]` — only `root` and `operation` nodes get a fresh argument
array (allocated at the end of the heap, duplicating the contents of the
source node's cell); an `equal` node's copy shares the original cell, and
other shapes carry no array. -/
def copyH (el : HElem) (h : Heap) : HFrame × Heap :=
  match el with
  | .identH tok => (.identF tok, h)
  | .treeH t => (.treeF t, h)
  | .opH op c => (.opF op (List.length h), h ++ [((h.get? c).getD [])])
  | .equalH c => (.equalF c, h)
  | .lit t => (.litF t, h)
  | .missing => (.nullF, h)

/-- The scan for the first non-literal entry of a cell (`none`: all
literals; `some none`: a `null` entry crashes the scan; `some (some el)`:
the first AST entry). -/
def hFirstNonLit : List HElem → Option (Option HElem)
  | [] => none
  | .lit _ :: rest => hFirstNonLit rest
  | .missing :: _ => some none
  | el :: _ => some (some el)

/-- Operation application on a fully evaluated cell (heap model twin of
`applyOp`). -/
def happlyOp (opv : TokenValue) (args : List HElem) : Option BinaryTree :=
  if opv.eqStr TKN_CONS then
    match args.get? 0, args.get? 1 with
    | some (.lit l), some (.lit r) => some (.node l r)
    | _, _ => none
  else if opv.eqStr TKN_HD then
    match args.get? 0 with
    | some (.lit t) => some (match t with | .nil => .nil | .node l _ => l)
    | _ => none
  else if opv.eqStr TKN_TL then
    match args.get? 0 with
    | some (.lit t) => some (match t with | .nil => .nil | .node _ r => r)
    | _ => none
  else none

/-- Replace the first non-literal entry of a cell with a literal. -/
def hreplaceFirst : List HElem → BinaryTree → Option (List HElem)
  | [], _ => some []
  | .lit t :: rest, v => (hreplaceFirst rest v).map (fun r => .lit t :: r)
  | .missing :: _, _ => none
  | _ :: rest, v => some (.lit v :: rest)

/-- Embedding of `_replaceArgWithLiteral` in the heap model: pop the parent frame and
write the replacement into the parent's own cell. -/
def hreplaceArg (v : BinaryTree) (stack : List HFrame) (h : Heap) :
    Option (List HFrame × Heap) :=
  match stack with
  | .opF op pc :: rest =>
    match h.get? pc with
    | none => none
    | some cell => (hreplaceFirst cell v).map (fun c' => (.opF op pc :: rest, h.set pc c'))
  | .rootH pc :: rest =>
    match h.get? pc with
    | none => none
    | some cell => (hreplaceFirst cell v).map (fun c' => (.rootH pc :: rest, h.set pc c'))
  | _ => none

/-- The `_evalExpr` evaluation loop in the heap model; the heap is
returned in every outcome so that the fate of the AST's cells is
observable even on a runtime failure. -/
def hEvalLoop (store : Store) : Nat → List HFrame → Heap → Option (List HFrame) × Heap
  | 0, _, h => (none, h)
  | fuel + 1, stack, h =>
    if stack.length ≤ 1 then (some stack, h)
    else
      match stack with
      | [] => (some [], h)
      | curr :: rest =>
        match curr with
        | .opF op c =>
          match h.get? c with
          | none => (none, h)
          | some args =>
            match hFirstNonLit args with
            | some none => (none, h)
            | some (some el) =>
              let (cf, h') := copyH el h
              hEvalLoop store fuel (cf :: .opF op c :: rest) h'
            | none =>
              match happlyOp op.value args with
              | none => (none, h)
              | some val =>
                match hreplaceArg val rest h with
                | none => (none, h)
                | some (rest', h') => hEvalLoop store fuel rest' h'
        | .identF tok =>
          let v := if tok.value.eqStr "nil" then BinaryTree.nil
            else (store.get tok.value).getD .nil
          match hreplaceArg v rest h with
          | none => (none, h)
          | some (rest', h') => hEvalLoop store fuel rest' h'
        | _ => (none, h)

/-- Embedding of `_evalExpr` in the heap model: load the AST into a fresh heap,
allocate the root frame's argument array `[expr]`, push a shallow copy of
the expression, and run the loop. -/
def hEvalExpr (store : Store) (e : Expr) : Option BinaryTree × Heap :=
  let (he, h0) := loadExpr e []
  let h1 := h0 ++ [[he]]
  let (cf, h2) := copyH he h1
  let (res, h') := hEvalLoop store (evalFuel e) [cf, .rootH h0.length] h2
  match res with
  | none => (none, h')
  | some stack =>
    match stack with
    | [.rootH rc] =>
      match (h'.get? rc).bind (fun cell => cell.head?) with
      | some (.lit t) => (some t, h')
      | _ => (none, h')
    | _ => (none, h')

/-- The heap cells of the parser-produced AST of an expression: the heap
as `_evalExpr` finds it before evaluating. -/
def astHeap (e : Expr) : Heap := (loadExpr e []).2

/-! ## Programs-as-data display -/

mutual

/-- A programs-as-data value (`ProgDataType` and its constituents): a
number, a string token, or a nested list. -/
inductive PadVal where
  | num (n : Nat)
  | strV (s : String)
  | lst (l : PadList)

/-- A list of programs-as-data values. -/
inductive PadList where
  | nil
  | cons (head : PadVal) (tail : PadList)

end

/-- A display format: the marker placed before symbolic tokens
(`{token_prefix: '@' | ''}` in the spec). -/
structure PadFormat where
  symMark : String

/-- Modelled from the spec: the `HWHILE` display format of
`src/tools/progAsData.ts` (not among the provided sources) marks symbolic
tokens with `@`. -/
def HWHILE_DISPLAY_FORMAT : PadFormat := { symMark := "@" }

/-- Modelled from the spec: the `PURE` display format omits the marker. -/
def PURE_DISPLAY_FORMAT : PadFormat := { symMark := "" }

mutual

/-- Modelled from the spec: inline rendering of a PAD value in expression
position — bracketed, comma-separated; symbolic tokens carry the format's
marker; numbers and the literal `nil` are never marked. -/
def padInline : PadFormat → PadVal → String
  | _, .num n => toString n
  | fmt, .strV s => if s = "nil" then s else fmt.symMark ++ s
  | fmt, .lst l => "[" ++ padInlineList fmt l ++ "]"

/-- Modelled from the spec: the comma-separated inline rendering of a PAD
list's elements. -/
def padInlineList : PadFormat → PadList → String
  | _, .nil => ""
  | fmt, .cons x .nil => padInline fmt x
  | fmt, .cons x (.cons y t) => padInline fmt x ++ ", " ++ padInlineList fmt (.cons y t)

end

/-- Four spaces of indentation per nesting level. -/
def padIndent (n : Nat) : String := String.join (List.replicate n "    ")

mutual

/-- Modelled from the spec: rendering of one command of a PAD program.
`while` and `if` commands render their statement-list arguments
multi-line (block position); every other command renders inline. -/
def padCmd (fmt : PadFormat) (lvl : Nat) : PadVal → String
  | .lst (.cons (.strV tag) (.cons cond (.cons (.lst body) .nil))) =>
    if tag = "while" then
      "[" ++ fmt.symMark ++ tag ++ ", " ++ padInline fmt cond ++ ", [\n" ++
        padCmdList fmt (lvl + 1) body ++ "\n" ++ padIndent lvl ++ "]]"
    else padInline fmt (.lst (.cons (.strV tag) (.cons cond (.cons (.lst body) .nil))))
  | .lst (.cons (.strV tag) (.cons cond (.cons (.lst thenB) (.cons (.lst elseB) .nil)))) =>
    if tag = "if" then
      "[" ++ fmt.symMark ++ tag ++ ", " ++ padInline fmt cond ++ ", [\n" ++
        padCmdList fmt (lvl + 1) thenB ++ "\n" ++ padIndent lvl ++ "], [\n" ++
        padCmdList fmt (lvl + 1) elseB ++ "\n" ++ padIndent lvl ++ "]]"
    else padInline fmt
      (.lst (.cons (.strV tag) (.cons cond (.cons (.lst thenB) (.cons (.lst elseB) .nil)))))
  | v => padInline fmt v

/-- Modelled from the spec: the lines of a block-position statement list,
one indented line per element, separated by commas and newlines. -/
def padCmdList (fmt : PadFormat) (lvl : Nat) : PadList → String
  | .nil => ""
  | .cons c .nil => padIndent lvl ++ padCmd fmt lvl c
  | .cons c (.cons c2 t) =>
    padIndent lvl ++ padCmd fmt lvl c ++ ",\n" ++ padCmdList fmt lvl (.cons c2 t)

end

/-- Modelled from the spec: `displayPad` of `src/tools/progAsData.ts` (not
among the provided sources).  A program `[input, body, output]` renders
with its body multi-line at one indent level and a trailing newline; the
spec's example and the repository's tests fix the layout. -/
def displayPad (p : PadVal) (fmt : PadFormat) : String :=
  match p with
  | .lst (.cons inp (.cons (.lst body) (.cons outp .nil))) =>
    "[" ++ padInline fmt inp ++ ", [\n" ++ padCmdList fmt 1 body ++ "\n], " ++
      padInline fmt outp ++ "]\n"
  | v => padInline fmt v ++ "\n"

/-! ## Concrete programs used by the claims -/

/-- The spec's numeric tree encoding: `encode 0 = nil`,
`encode (n+1) = (nil, encode n)`. -/
def encodeNum : Nat → BinaryTree
  | 0 => .nil
  | n + 1 => .node .nil (encodeNum n)

/-- Tokens of `prog read Z { while cons ; X { } } write Z`: the `while`
condition `cons ; X` is a partial expression (its first argument fails to
parse), yet `_readStmt`'s `while` branch checks only `cond !== null`. -/
def whileBadCondToks : List Token := layout [idTok "prog", symTok TKN_READ, idTok "Z",
  symTok TKN_BLOCK_OPN, symTok TKN_WHILE, opTok TKN_CONS, symTok TKN_SEP, idTok "X",
  symTok TKN_BLOCK_OPN, symTok TKN_BLOCK_CLS, symTok TKN_BLOCK_CLS, symTok TKN_WRITE,
  idTok "Z"]

/-- Tokens of `prog read X { Y := X } write Y`. -/
def progSimpleToks : List Token := layout [idTok "prog", symTok TKN_READ, idTok "X",
  symTok TKN_BLOCK_OPN, idTok "Y", symTok TKN_ASSGN, idTok "X", symTok TKN_BLOCK_CLS,
  symTok TKN_WRITE, idTok "Y"]

/-- Tokens of `prog read X { Y := X ; } write Y` — a trailing semicolon
immediately before the closing brace. -/
def trailingSemiToks : List Token := layout [idTok "prog", symTok TKN_READ, idTok "X",
  symTok TKN_BLOCK_OPN, idTok "Y", symTok TKN_ASSGN, idTok "X", symTok TKN_SEP,
  symTok TKN_BLOCK_CLS, symTok TKN_WRITE, idTok "Y"]

/-- Tokens of the spec's scenario 3 program
`add read XY { X := hd XY; Y := tl XY; while X { Y := cons nil Y; X := tl X } } write Y`. -/
def addProgramToks : List Token := layout [idTok "add", symTok TKN_READ, idTok "XY",
  symTok TKN_BLOCK_OPN,
  idTok "X", symTok TKN_ASSGN, opTok TKN_HD, idTok "XY", symTok TKN_SEP,
  idTok "Y", symTok TKN_ASSGN, opTok TKN_TL, idTok "XY", symTok TKN_SEP,
  symTok TKN_WHILE, idTok "X", symTok TKN_BLOCK_OPN,
  idTok "Y", symTok TKN_ASSGN, opTok TKN_CONS, idTok "nil", idTok "Y", symTok TKN_SEP,
  idTok "X", symTok TKN_ASSGN, opTok TKN_TL, idTok "X",
  symTok TKN_BLOCK_CLS,
  symTok TKN_BLOCK_CLS, symTok TKN_WRITE, idTok "Y"]

/-- Tokens of the statement `if X { } }` (the final `}` is the closing
brace of an enclosing block, which `_readElse` peeks at). -/
def ifStmtToks : List Token := layout [symTok TKN_IF, idTok "X", symTok TKN_BLOCK_OPN,
  symTok TKN_BLOCK_CLS, symTok TKN_BLOCK_CLS]

/-- Tokens of `prog read X { } write Y` — the output variable is never
assigned. -/
def emptyBodyToks : List Token := layout [idTok "prog", symTok TKN_READ, idTok "X",
  symTok TKN_BLOCK_OPN, symTok TKN_BLOCK_CLS, symTok TKN_WRITE, idTok "Y"]

/-- Tokens of `p read X { X := cons nil X } write X` — each run of the
program grows `X` by one `cons` layer. -/
def consGrowToks : List Token := layout [idTok "p", symTok TKN_READ, idTok "X",
  symTok TKN_BLOCK_OPN, idTok "X", symTok TKN_ASSGN, opTok TKN_CONS, idTok "nil",
  idTok "X", symTok TKN_BLOCK_CLS, symTok TKN_WRITE, idTok "X"]

/-- The PAD value `[0, [[':=', 1, ['quote','nil']]], 1]` of the display
claim. -/
def padExample : PadVal :=
  .lst (.cons (.num 0) (.cons (.lst (.cons (.lst (.cons (.strV ":=") (.cons (.num 1)
    (.cons (.lst (.cons (.strV "quote") (.cons (.strV "nil") .nil))) .nil))))
    .nil)) (.cons (.num 1) .nil)))

/-- Identifier tokens used in the semantic-equation statements. -/
def tokX : Token := idTok "X" 0

/-- The identifier token `Y`. -/
def tokY : Token := idTok "Y" 1

/-- The reserved identifier token `nil`. -/
def tokNilId : Token := idTok "nil" 2

/-- A store binding `X` to `a` and `Y` to `b`. -/
def storeXY (a b : BinaryTree) : Store :=
  (Store.empty.set tokX.value a).set tokY.value b

/-- The expression `cons X Y`. -/
def consXY : Expr :=
  .operation true (opTok TKN_CONS 3) [some (.identifier tokX), some (.identifier tokY)]
/-- Convenience builder for PAD lists. -/
def padListOf : List PadVal → PadList
  | [] => .nil
  | x :: xs => .cons x (padListOf xs)

/-- The PAD value of the repository's operations display test. -/
def padOpsExample : PadVal := .lst (padListOf [.num 0, .lst (padListOf [
  .lst (padListOf [.strV ":=", .num 1,
    .lst (padListOf [.strV "hd", .lst (padListOf [.strV "var", .num 0])])]),
  .lst (padListOf [.strV ":=", .num 2,
    .lst (padListOf [.strV "tl", .lst (padListOf [.strV "var", .num 0])])]),
  .lst (padListOf [.strV ":=", .num 3,
    .lst (padListOf [.strV "cons", .lst (padListOf [.strV "var", .num 1]),
      .lst (padListOf [.strV "var", .num 2])])])]), .num 3])

/-- The PAD value of the repository's while-and-if display test. -/
def padWhileExample : PadVal := .lst (padListOf [.num 0, .lst (padListOf [
  .lst (padListOf [.strV ":=", .num 1,
    .lst (padListOf [.strV "quote", .strV "nil"])]),
  .lst (padListOf [.strV "while", .lst (padListOf [.strV "var", .num 0]),
    .lst (padListOf [
      .lst (padListOf [.strV ":=", .num 1, .lst (padListOf [.strV "cons",
        .lst (padListOf [.strV "quote", .strV "nil"]),
        .lst (padListOf [.strV "var", .num 1])])]),
      .lst (padListOf [.strV "if",
        .lst (padListOf [.strV "hd", .lst (padListOf [.strV "var", .num 0])]),
        .lst (padListOf [.lst (padListOf [.strV ":=", .num 0,
          .lst (padListOf [.strV "hd", .lst (padListOf [.strV "var", .num 0])])])]),
        .lst (padListOf [.lst (padListOf [.strV ":=", .num 0,
          .lst (padListOf [.strV "tl", .lst (padListOf [.strV "var", .num 0])])])])])])])]),
  .num 1])

/-- Which heap cell a stack frame may write through
`_replaceArgWithLiteral`: only operation frames and the root frame carry a
writable argument array, and the no-mutation invariant requires their
cells to lie above the AST's cells. -/
def frameCellsOK (n0 : Nat) : HFrame → Prop := fun f =>
  match f with
  | .opF _ c => n0 ≤ c
  | .rootH c => n0 ≤ c
  | _ => True

/-! ## Lemmas -/

theorem tokens_addErrorAt' (s : PState) (p : Pos) (m : String) :
    (s.addErrorAt p m).tokens = s.tokens := rfl

theorem nextTok_tokens_le (s : PState) : (s.nextTok).2.tokens.length ≤ s.tokens.length := by
  unfold PState.nextTok
  cases h : s.tokens <;> simp [h]

theorem expect_tokens_le (s : PState) (E : List String) :
    (s.expect E).2.tokens.length ≤ s.tokens.length := by
  unfold PState.expect
  rcases h : s.nextTok with ⟨first, s1⟩
  have h1 : s1.tokens.length ≤ s.tokens.length := by
    have h2 := nextTok_tokens_le s; rw [h] at h2; exact h2
  cases first
  · simpa [PState.unexpectedEOI, PState.unexpectedValue, tokens_addErrorAt'] using h1
  · dsimp only
    split
    · exact h1
    · split
      · exact h1
      · simpa [PState.unexpectedToken, PState.unexpectedValue, tokens_addErrorAt'] using h1

theorem consumeUntilGo_tokens_le (fuel : Nat) :
    ∀ (s : PState) (E : List String),
      (consumeUntilGo fuel s E).2.tokens.length ≤ s.tokens.length := by
  induction fuel with
  | zero => intro s E; exact le_refl _
  | succ n ih =>
    intro s E
    rw [consumeUntilGo]
    cases hT : s.tokens with
    | nil => simp [hT]
    | cons next rest =>
      simp only [hT]
      split
      · simp [hT]
      · rcases hrec : consumeUntilGo n
          { s with tokens := rest, pos := next.pos, lastToken := some next } E with ⟨res, s2⟩
        have h2 := ih { s with tokens := rest, pos := next.pos, lastToken := some next } E
        rw [hrec] at h2
        simp only [hrec]
        simp only [hT, List.length_cons]
        dsimp only at h2 ⊢
        omega

theorem consumeUntil_tokens_le (s : PState) (E : List String) :
    (s.consumeUntil E).2.tokens.length ≤ s.tokens.length := by
  rw [PState.consumeUntil]
  exact consumeUntilGo_tokens_le _ s E

theorem readElseMono (n : Nat)
    (ihB : ∀ po s, ((readBlock n po s).2.tokens.length ≤ s.tokens.length)) :
    ∀ po s, ((readElse (n+1) po s).2.tokens.length ≤ s.tokens.length) := by
  intro po s
  rw [readElse]
  cases hpk : s.peek with
  | none =>
    simp only [PState.unexpectedEOI, PState.unexpectedValue, tokens_addErrorAt']
    ((try dsimp only); omega)
  | some peek =>
    dsimp only
    split
    · rcases h0 : s.nextTok with ⟨_, s0⟩
      have hs0 : s0.tokens.length ≤ s.tokens.length := by
        have h' := nextTok_tokens_le s; rw [h0] at h'; exact h'
      simp only [h0]
      calc ((readBlock n po s0).2.tokens.length) ≤ s0.tokens.length := ihB po s0
        _ ≤ s.tokens.length := hs0
    · ((try dsimp only); omega)

theorem readSLLoopMono (n : Nat)
    (ihS : ∀ po s, ((readStmt n po s).2.tokens.length ≤ s.tokens.length))
    (ihL : ∀ po s res st, ((readSLLoop n po s res st).2.tokens.length ≤ s.tokens.length)) :
    ∀ po s res st, ((readSLLoop (n+1) po s res st).2.tokens.length ≤ s.tokens.length) := by
  intro po s res st
  rw [readSLLoop]
  rcases h0 : readStmt n po s with ⟨⟨stS, stmt⟩, s0⟩
  have hs0 : s0.tokens.length ≤ s.tokens.length := by
    have h' := ihS po s; rw [h0] at h'; exact h'
  simp only [h0]
  split
  · exact hs0
  · rcases h1 : (if stS = ParseStatus.ERROR
        then ((s0.consumeUntil [TKN_BLOCK_CLS, TKN_SEP]).2, ParseStatus.ERROR)
        else (s0, st)) with ⟨s1, st1⟩
    have hs1 : s1.tokens.length ≤ s0.tokens.length := by
      by_cases hE : stS = ParseStatus.ERROR
      · rw [if_pos hE] at h1
        injection h1 with h1a h1b
        rw [← h1a]
        exact consumeUntil_tokens_le s0 _
      · rw [if_neg hE] at h1
        injection h1 with h1a h1b
        rw [← h1a]
    simp only [h1]
    cases hpk : s1.peek with
    | none =>
      rcases h2 : s1.nextTok with ⟨_, s2⟩
      have hs2 : s2.tokens.length ≤ s1.tokens.length := by
        have h' := nextTok_tokens_le s1; rw [h2] at h'; exact h'
      simp only [h2, PState.unexpectedEOI, PState.unexpectedValue, tokens_addErrorAt']
      ((try dsimp only); omega)
    | some next =>
      dsimp only
      split
      · rcases h2 : s1.nextTok with ⟨_, s2⟩
        have hs2 : s2.tokens.length ≤ s1.tokens.length := by
          have h' := nextTok_tokens_le s1; rw [h2] at h'; exact h'
        simp only [h2]
        calc ((readSLLoop n po s2 (res ++ [stmt]) st1).2.tokens.length) ≤ s2.tokens.length :=
              ihL po s2 _ _
          _ ≤ s.tokens.length := by ((try dsimp only); omega)
      · ((try dsimp only); omega)

theorem readStatementListMono (n : Nat)
    (ihL : ∀ po s res st, ((readSLLoop n po s res st).2.tokens.length ≤ s.tokens.length)) :
    ∀ po s, ((readStatementList (n+1) po s).2.tokens.length ≤ s.tokens.length) := by
  intro po s
  rw [readStatementList]
  exact ihL po s [] .OK

theorem readCaseMono (n : Nat)
    (ihE : ∀ po s, ((readExpr n po s).2.tokens.length ≤ s.tokens.length))
    (ihSL : ∀ po s, ((readStatementList n po s).2.tokens.length ≤ s.tokens.length)) :
    ∀ po s, ((readCase (n+1) po s).2.tokens.length ≤ s.tokens.length) := by
  intro po s
  rw [readCase]
  rcases h0 : s.nextTok with ⟨caseTkn, s0⟩
  have hs0 : s0.tokens.length ≤ s.tokens.length := by
    have h' := nextTok_tokens_le s; rw [h0] at h'; exact h'
  simp only [h0]
  cases caseTkn with
  | none => exact hs0
  | some caseTkn =>
    dsimp only
    split
    · -- default
      rcases h1 : s0.expect [TKN_COLON] with ⟨_, s1⟩
      have hs1 : s1.tokens.length ≤ s0.tokens.length := by
        have h' := expect_tokens_le s0 [TKN_COLON]; rw [h1] at h'; exact h'
      rcases h2 : readStatementList n po s1 with ⟨⟨bodyStatus, body⟩, s2⟩
      have hs2 : s2.tokens.length ≤ s1.tokens.length := by
        have h' := ihSL po s1; rw [h2] at h'; exact h'
      simp only [h1, h2]
      split <;> ((try dsimp only); omega)
    · split
      · -- case
        rcases h1 : readExpr n po s0 with ⟨expr, s1⟩
        have hs1 : s1.tokens.length ≤ s0.tokens.length := by
          have h' := ihE po s0; rw [h1] at h'; exact h'
        simp only [h1]
        cases expr with
        | none => dsimp only; ((try dsimp only); omega)
        | some expr =>
          dsimp only
          rcases h2 : s1.expect [TKN_COLON] with ⟨_, s2⟩
          have hs2 : s2.tokens.length ≤ s1.tokens.length := by
            have h' := expect_tokens_le s1 [TKN_COLON]; rw [h2] at h'; exact h'
          rcases h3 : readStatementList n po s2 with ⟨⟨bodyStatus, body⟩, s3⟩
          have hs3 : s3.tokens.length ≤ s2.tokens.length := by
            have h' := ihSL po s2; rw [h3] at h'; exact h'
          simp only [h2, h3]
          split <;> (try split) <;> ((try dsimp only); omega)
      · simp only [PState.unexpectedToken, PState.unexpectedValue, tokens_addErrorAt']
        ((try dsimp only); omega)

theorem readSwitchLoopMono (n : Nat)
    (ihC : ∀ po s, ((readCase n po s).2.tokens.length ≤ s.tokens.length))
    (ihW : ∀ po s cs df st, ((readSwitchLoop n po s cs df st).2.tokens.length ≤ s.tokens.length)) :
    ∀ po s cs df st, ((readSwitchLoop (n+1) po s cs df st).2.tokens.length ≤ s.tokens.length) := by
  intro po s cs df st
  rw [readSwitchLoop]
  cases hpk : s.peek with
  | none => dsimp only; omega
  | some next =>
    dsimp only
    split
    · dsimp only; omega
    · generalize hG : (if df.isSome = true
        then s.unexpectedToken (some next.value.display) [TKN_BLOCK_CLS] else s) = s0
      have hs0 : s0.tokens.length ≤ s.tokens.length := by
        rw [← hG]
        split
        · simp [PState.unexpectedToken, PState.unexpectedValue, tokens_addErrorAt']
        · exact le_refl _
      rcases h1 : readCase n po s0 with ⟨⟨caseStatus, body⟩, s1⟩
      have hs1 : s1.tokens.length ≤ s0.tokens.length := by
        have h' := ihC po s0; rw [h1] at h'; exact h'
      simp only [h1]
      clear h1
      have key : ∀ stA : ParseStatus,
          ((if stA = ParseStatus.EOI ∨ body.isNone = true then ((stA, cs, df), s1)
            else
              match body with
              | some (Sum.inl c) => readSwitchLoop n po s1 (cs ++ [c]) df stA
              | some (Sum.inr d) => readSwitchLoop n po s1 cs (some d) stA
              | none => ((stA, cs, df), s1)).2.tokens.length) ≤ s.tokens.length := by
        intro stA
        split
        · dsimp only; omega
        · cases body with
          | none => dsimp only; omega
          | some sc =>
            cases sc with
            | inl c =>
              dsimp only
              calc ((readSwitchLoop n po s1 (cs ++ [c]) df stA).2.tokens.length)
                  ≤ s1.tokens.length := ihW _ _ _ _ _
                _ ≤ s.tokens.length := by omega
            | inr d =>
              dsimp only
              calc ((readSwitchLoop n po s1 cs (some d) stA).2.tokens.length)
                  ≤ s1.tokens.length := ihW _ _ _ _ _
                _ ≤ s.tokens.length := by omega
      split
      · exact key _
      · exact key _

theorem readSwitchMono (n : Nat)
    (ihE : ∀ po s, ((readExpr n po s).2.tokens.length ≤ s.tokens.length))
    (ihW : ∀ po s cs df st, ((readSwitchLoop n po s cs df st).2.tokens.length ≤ s.tokens.length)) :
    ∀ po s, ((readSwitch (n+1) po s).2.tokens.length ≤ s.tokens.length) := by
  intro po s
  rw [readSwitch]
  rcases h0 : readExpr n po s with ⟨inpExpr, s0⟩
  have hs0 : s0.tokens.length ≤ s.tokens.length := by
    have h' := ihE po s; rw [h0] at h'; exact h'
  rcases h1 : s0.expect [TKN_BLOCK_OPN] with ⟨⟨status, _⟩, s1⟩
  have hs1 : s1.tokens.length ≤ s0.tokens.length := by
    have h' := expect_tokens_le s0 [TKN_BLOCK_OPN]; rw [h1] at h'; exact h'
  simp only [h0, h1]
  split
  · ((try dsimp only); omega)
  · rcases h2 : readSwitchLoop n po s1 [] none status with ⟨⟨st2, cs2, df2⟩, s2⟩
    have hs2 : s2.tokens.length ≤ s1.tokens.length := by
      have h' := ihW po s1 [] none status; rw [h2] at h'; exact h'
    rcases h3 : s2.expect [TKN_BLOCK_CLS] with ⟨⟨sCls, _⟩, s3⟩
    have hs3 : s3.tokens.length ≤ s2.tokens.length := by
      have h' := expect_tokens_le s2 [TKN_BLOCK_CLS]; rw [h3] at h'; exact h'
    simp only [h2, h3]
    split <;> (try split) <;> ((try dsimp only); omega)

theorem readStmtMono (n : Nat)
    (ihE : ∀ po s, ((readExpr n po s).2.tokens.length ≤ s.tokens.length))
    (ihEl : ∀ po s, ((readElse n po s).2.tokens.length ≤ s.tokens.length))
    (ihSw : ∀ po s, ((readSwitch n po s).2.tokens.length ≤ s.tokens.length))
    (ihB : ∀ po s, ((readBlock n po s).2.tokens.length ≤ s.tokens.length)) :
    ∀ po s, ((readStmt (n+1) po s).2.tokens.length ≤ s.tokens.length) := by
  intro po s
  rw [readStmt]
  rcases h0 : s.nextTok with ⟨first, s0⟩
  have hs0 : s0.tokens.length ≤ s.tokens.length := by
    have h' := nextTok_tokens_le s; rw [h0] at h'; exact h'
  simp only [h0]
  cases first with
  | none => exact hs0
  | some first =>
    dsimp only
    split
    · -- if
      rcases h1 : readExpr n po s0 with ⟨cond, s1⟩
      have hs1 : s1.tokens.length ≤ s0.tokens.length := by
        have h' := ihE po s0; rw [h1] at h'; exact h'
      rcases h2 : readBlock n po s1 with ⟨⟨ifState, ifBlock⟩, s2⟩
      have hs2 : s2.tokens.length ≤ s1.tokens.length := by
        have h' := ihB po s1; rw [h2] at h'; exact h'
      rcases h3 : readElse n po s2 with ⟨⟨elseState, elseBlock⟩, s3⟩
      have hs3 : s3.tokens.length ≤ s2.tokens.length := by
        have h' := ihEl po s2; rw [h3] at h'; exact h'
      simp only [h1, h2, h3]
      split <;> ((try dsimp only); omega)
    · split
      · -- while
        rcases h1 : readExpr n po s0 with ⟨cond, s1⟩
        have hs1 : s1.tokens.length ≤ s0.tokens.length := by
          have h' := ihE po s0; rw [h1] at h'; exact h'
        rcases h2 : readBlock n po s1 with ⟨⟨bodyState, body⟩, s2⟩
        have hs2 : s2.tokens.length ≤ s1.tokens.length := by
          have h' := ihB po s1; rw [h2] at h'; exact h'
        simp only [h1, h2]
        split <;> ((try dsimp only); omega)
      · split
        · -- assignment
          rcases h1 : s0.expect [TKN_ASSGN] with ⟨_, s1⟩
          have hs1 : s1.tokens.length ≤ s0.tokens.length := by
            have h' := expect_tokens_le s0 [TKN_ASSGN]; rw [h1] at h'; exact h'
          rcases h2 : readExpr n po s1 with ⟨val, s2⟩
          have hs2 : s2.tokens.length ≤ s1.tokens.length := by
            have h' := ihE po s1; rw [h2] at h'; exact h'
          simp only [h1, h2]
          split <;> ((try dsimp only); omega)
        · split
          · -- switch
            calc ((readSwitch n po s0).2.tokens.length) ≤ s0.tokens.length := ihSw po s0
              _ ≤ s.tokens.length := hs0
          · simp only [PState.unexpectedTokenCustom, PState.addError, tokens_addErrorAt']
            ((try dsimp only); omega)

theorem readBlockMono (n : Nat)
    (ihSL : ∀ po s, ((readStatementList n po s).2.tokens.length ≤ s.tokens.length)) :
    ∀ po s, ((readBlock (n+1) po s).2.tokens.length ≤ s.tokens.length) := by
  intro po s
  rw [readBlock]
  rcases h0 : s.expect [TKN_BLOCK_OPN] with ⟨_, s0⟩
  have hs0 : s0.tokens.length ≤ s.tokens.length := by
    have h' := expect_tokens_le s [TKN_BLOCK_OPN]; rw [h0] at h'; exact h'
  simp only [h0]
  cases hpk : s0.peek with
  | none =>
    rcases h1 : s0.nextTok with ⟨_, s1⟩
    have hs1 : s1.tokens.length ≤ s0.tokens.length := by
      have h' := nextTok_tokens_le s0; rw [h1] at h'; exact h'
    simp only [h1, PState.unexpectedEOI, PState.unexpectedValue, tokens_addErrorAt']
    ((try dsimp only); omega)
  | some first =>
    dsimp only
    split
    · rcases h1 : s0.nextTok with ⟨_, s1⟩
      have hs1 : s1.tokens.length ≤ s0.tokens.length := by
        have h' := nextTok_tokens_le s0; rw [h1] at h'; exact h'
      simp only [h1]
      ((try dsimp only); omega)
    · rcases h1 : readStatementList n po s0 with ⟨⟨status, res⟩, s1⟩
      have hs1 : s1.tokens.length ≤ s0.tokens.length := by
        have h' := ihSL po s0; rw [h1] at h'; exact h'
      simp only [h1]
      split
      · ((try dsimp only); omega)
      · rcases h2 : s1.expect [TKN_BLOCK_CLS] with ⟨⟨clsStat, _⟩, s2⟩
        have hs2 : s2.tokens.length ≤ s1.tokens.length := by
          have h' := expect_tokens_le s1 [TKN_BLOCK_CLS]; rw [h2] at h'; exact h'
        simp only [h2]
        split
        · ((try dsimp only); omega)
        · split <;> ((try dsimp only); omega)

theorem readExprMono (n : Nat)
    (ihE : ∀ po s, ((readExpr n po s).2.tokens.length ≤ s.tokens.length)) :
    ∀ po s, ((readExpr (n+1) po s).2.tokens.length ≤ s.tokens.length) := by
  intro po s
  rw [readExpr]
  rcases h0 : s.nextTok with ⟨first, s0⟩
  have hs0 : s0.tokens.length ≤ s.tokens.length := by
    have h' := nextTok_tokens_le s; rw [h0] at h'; exact h'
  simp only [h0]
  cases first with
  | none => exact hs0
  | some first =>
    dsimp only
    split
    · rcases h1 : readExpr n po s0 with ⟨expr, s1⟩
      have hs1 : s1.tokens.length ≤ s0.tokens.length := by
        have h' := ihE po s0; rw [h1] at h'; exact h'
      rcases h2 : s1.nextTok with ⟨close, s2⟩
      have hs2 : s2.tokens.length ≤ s1.tokens.length := by
        have h' := nextTok_tokens_le s1; rw [h2] at h'; exact h'
      simp only [h1, h2]
      cases close with
      | none =>
        simp only [PState.unexpectedEOI, PState.unexpectedValue, tokens_addErrorAt']
        omega
      | some close =>
        dsimp only
        split
        · omega
        · simp only [PState.unexpectedToken, PState.unexpectedValue, tokens_addErrorAt']
          omega
    · split
      · split
        · rcases h1 : readExpr n po s0 with ⟨arg, s1⟩
          have hs1 : s1.tokens.length ≤ s0.tokens.length := by
            have h' := ihE po s0; rw [h1] at h'; exact h'
          simp only [h1]
          cases arg <;> dsimp only <;> omega
        · rcases h1 : readExpr n po s0 with ⟨left, s1⟩
          have hs1 : s1.tokens.length ≤ s0.tokens.length := by
            have h' := ihE po s0; rw [h1] at h'; exact h'
          rcases h2 : readExpr n po s1 with ⟨right, s2⟩
          have hs2 : s2.tokens.length ≤ s1.tokens.length := by
            have h' := ihE po s1; rw [h2] at h'; exact h'
          simp only [h1, h2]
          omega
      · split
        · exact hs0
        · split
          · exact hs0
          · simp only [PState.unexpectedTokenCustom, PState.addError, tokens_addErrorAt']
            omega

/-- Every parsing function of the mutual block only removes tokens from
the state's token list (it is the caller's array: `_next` pops with
`shift()` and nothing ever appends). -/
theorem parserMono : ∀ fuel : Nat,
    (∀ po s, ((readExpr fuel po s).2.tokens.length ≤ s.tokens.length))
  ∧ (∀ po s, ((readElse fuel po s).2.tokens.length ≤ s.tokens.length))
  ∧ (∀ po s res st, ((readSLLoop fuel po s res st).2.tokens.length ≤ s.tokens.length))
  ∧ (∀ po s, ((readStatementList fuel po s).2.tokens.length ≤ s.tokens.length))
  ∧ (∀ po s, ((readCase fuel po s).2.tokens.length ≤ s.tokens.length))
  ∧ (∀ po s cs df st, ((readSwitchLoop fuel po s cs df st).2.tokens.length ≤ s.tokens.length))
  ∧ (∀ po s, ((readSwitch fuel po s).2.tokens.length ≤ s.tokens.length))
  ∧ (∀ po s, ((readStmt fuel po s).2.tokens.length ≤ s.tokens.length))
  ∧ (∀ po s, ((readBlock fuel po s).2.tokens.length ≤ s.tokens.length)) := by
  intro fuel
  induction fuel with
  | zero =>
    exact ⟨fun po s => le_refl _, fun po s => le_refl _, fun po s res st => le_refl _,
      fun po s => le_refl _, fun po s => le_refl _, fun po s cs df st => le_refl _,
      fun po s => le_refl _, fun po s => le_refl _, fun po s => le_refl _⟩
  | succ n ih =>
    obtain ⟨ihE, ihEl, ihL, ihSL, ihC, ihW, ihSw, ihS, ihB⟩ := ih
    exact ⟨readExprMono n ihE, readElseMono n ihB, readSLLoopMono n ihS ihL,
      readStatementListMono n ihL, readCaseMono n ihE ihSL, readSwitchLoopMono n ihC ihW,
      readSwitchMono n ihE ihW, readStmtMono n ihE ihEl ihSw ihB, readBlockMono n ihSL⟩

theorem readInput_tokens_le (s : PState) :
    ((readInput s).2.tokens.length ≤ s.tokens.length) := by
  rw [readInput]
  cases hpk : s.peek with
  | none =>
    rcases h0 : s.nextTok with ⟨_, s0⟩
    have hs0 : s0.tokens.length ≤ s.tokens.length := by
      have h' := nextTok_tokens_le s; rw [h0] at h'; exact h'
    simp only [h0, PState.unexpectedEOICustom, PState.addError, tokens_addErrorAt']
    ((try dsimp only); omega)
  | some input =>
    dsimp only
    split
    · simp only [tokens_addErrorAt']; ((try dsimp only); omega)
    · split <;>
      · rcases h0 : s.nextTok with ⟨_, s0⟩
        have hs0 : s0.tokens.length ≤ s.tokens.length := by
          have h' := nextTok_tokens_le s; rw [h0] at h'; exact h'
        simp only [h0]
        ((try dsimp only); omega)

theorem readRead_tokens_le (s : PState) :
    ((readRead s).2.tokens.length ≤ s.tokens.length) := by
  rw [readRead]
  cases hpk : s.peek with
  | none =>
    rcases h0 : s.nextTok with ⟨_, s0⟩
    have hs0 : s0.tokens.length ≤ s.tokens.length := by
      have h' := nextTok_tokens_le s; rw [h0] at h'; exact h'
    simp only [h0, PState.unexpectedEOI, PState.unexpectedValue, tokens_addErrorAt']
    ((try dsimp only); omega)
  | some read =>
    dsimp only
    split
    · rcases h0 : s.nextTok with ⟨_, s0⟩
      have hs0 : s0.tokens.length ≤ s.tokens.length := by
        have h' := nextTok_tokens_le s; rw [h0] at h'; exact h'
      simp only [h0]
      calc (readInput s0).2.tokens.length ≤ s0.tokens.length := readInput_tokens_le s0
        _ ≤ s.tokens.length := hs0
    · split
      · simp only [PState.unexpectedTokenAt, tokens_addErrorAt']; ((try dsimp only); omega)
      · rcases h0 : s.nextTok with ⟨_, s0⟩
        have hs0 : s0.tokens.length ≤ s.tokens.length := by
          have h' := nextTok_tokens_le s; rw [h0] at h'; exact h'
        simp only [h0, PState.unexpectedToken, PState.unexpectedValue, tokens_addErrorAt']
        ((try dsimp only); omega)

theorem readProgramOutro_tokens_le (s : PState) :
    ((readProgramOutro s).2.tokens.length ≤ s.tokens.length) := by
  rw [readProgramOutro]
  rcases h0 : s.nextTok with ⟨write, s0⟩
  have hs0 : s0.tokens.length ≤ s.tokens.length := by
    have h' := nextTok_tokens_le s; rw [h0] at h'; exact h'
  simp only [h0]
  cases write with
  | none =>
    simp only [PState.unexpectedEOI, PState.unexpectedValue, tokens_addErrorAt']
    ((try dsimp only); omega)
  | some write =>
    dsimp only
    rcases h1 : (if write.is TKN_WRITE = true then (ParseStatus.OK, (none : Option Token), s0)
      else if write.type = TokenType.identifier then
        (ParseStatus.ERROR, some write, s0.unexpectedToken (some write.value.display) [TKN_WRITE])
      else (ParseStatus.ERROR, none,
        s0.unexpectedValue write.type.str (some write.value.display) [TKN_WRITE]))
      with ⟨err, output, s1⟩
    have hs1 : s1.tokens.length ≤ s0.tokens.length := by
      by_cases hw : write.is TKN_WRITE = true
      · rw [if_pos hw] at h1
        injection h1 with h1a h1b; injection h1b with h1b h1c
        rw [← h1c]
      · rw [if_neg hw] at h1
        by_cases hid : write.type = TokenType.identifier
        · rw [if_pos hid] at h1
          injection h1 with h1a h1b; injection h1b with h1b h1c
          rw [← h1c]
          simp [PState.unexpectedToken, PState.unexpectedValue, tokens_addErrorAt']
        · rw [if_neg hid] at h1
          injection h1 with h1a h1b; injection h1b with h1b h1c
          rw [← h1c]
          simp [PState.unexpectedValue, tokens_addErrorAt']
    simp only [h1]
    rcases h2 : s1.nextTok with ⟨outputVar, s2⟩
    have hs2 : s2.tokens.length ≤ s1.tokens.length := by
      have h' := nextTok_tokens_le s1; rw [h2] at h'; exact h'
    simp only [h2]
    cases outputVar with
    | none =>
      simp only [PState.unexpectedEOI, PState.unexpectedValue, tokens_addErrorAt']
      ((try dsimp only); omega)
    | some outputVar =>
      dsimp only
      split
      · ((try dsimp only); omega)
      · simp only [PState.unexpectedTokenCustom, PState.addError, tokens_addErrorAt']
        ((try dsimp only); omega)

theorem readProgramIntro_tokens_le (s : PState) :
    ((readProgramIntro s).2.tokens.length ≤ s.tokens.length) := by
  rw [readProgramIntro]
  cases hpk : s.peek with
  | none =>
    rcases h0 : s.nextTok with ⟨_, s0⟩
    have hs0 : s0.tokens.length ≤ s.tokens.length := by
      have h' := nextTok_tokens_le s; rw [h0] at h'; exact h'
    simp only [h0, PState.unexpectedEOICustom, PState.addError, tokens_addErrorAt']
    ((try dsimp only); omega)
  | some name =>
    dsimp only
    split
    · rcases h0 : s.nextTok with ⟨_, s0⟩
      have hs0 : s0.tokens.length ≤ s.tokens.length := by
        have h' := nextTok_tokens_le s; rw [h0] at h'; exact h'
      simp only [h0]
      rcases h1 : readInput (s0.addErrorAt name.pos "Unexpected token: Missing program name")
        with ⟨⟨inputStatus, input⟩, s1⟩
      have hs1 : s1.tokens.length ≤ s0.tokens.length := by
        have h' := readInput_tokens_le
          (s0.addErrorAt name.pos "Unexpected token: Missing program name")
        rw [h1] at h'
        simpa [tokens_addErrorAt'] using h'
      simp only [h1]
      split <;> ((try dsimp only); omega)
    · split
      · simp only [PState.unexpectedTokenAt, tokens_addErrorAt']; ((try dsimp only); omega)
      · rcases h0 : s.nextTok with ⟨_, s0⟩
        have hs0 : s0.tokens.length ≤ s.tokens.length := by
          have h' := nextTok_tokens_le s; rw [h0] at h'; exact h'
        simp only [h0]
        rcases h1 : readRead s0 with ⟨⟨inputStatus, inputVar⟩, s1⟩
        have hs1 : s1.tokens.length ≤ s0.tokens.length := by
          have h' := readRead_tokens_le s0; rw [h1] at h'; exact h'
        simp only [h1]
        split
        · ((try dsimp only); omega)
        · split <;> ((try dsimp only); omega)

theorem nextTok_tokens_lt (s : PState) (h : s.tokens ≠ []) :
    (s.nextTok).2.tokens.length < s.tokens.length := by
  unfold PState.nextTok
  cases hT : s.tokens with
  | nil => exact absurd hT h
  | cons t rest => simp

theorem expect_tokens_lt (s : PState) (E : List String) (h : s.tokens ≠ []) :
    (s.expect E).2.tokens.length < s.tokens.length := by
  unfold PState.expect
  rcases h0 : s.nextTok with ⟨first, s0⟩
  have hs0 : s0.tokens.length < s.tokens.length := by
    have h' := nextTok_tokens_lt s h; rw [h0] at h'; exact h'
  cases first
  · simpa [PState.unexpectedEOI, PState.unexpectedValue, tokens_addErrorAt'] using hs0
  · dsimp only
    split
    · exact hs0
    · split
      · exact hs0
      · simpa [PState.unexpectedToken, PState.unexpectedValue, tokens_addErrorAt'] using hs0

theorem readBlock_tokens_lt (n : Nat) (po : Bool) (s : PState) (h : s.tokens ≠ []) :
    ((readBlock (n+1) po s).2.tokens.length < s.tokens.length) := by
  rw [readBlock]
  rcases h0 : s.expect [TKN_BLOCK_OPN] with ⟨_, s0⟩
  have hs0 : s0.tokens.length < s.tokens.length := by
    have h' := expect_tokens_lt s [TKN_BLOCK_OPN] h; rw [h0] at h'; exact h'
  simp only [h0]
  cases hpk : s0.peek with
  | none =>
    rcases h1 : s0.nextTok with ⟨_, s1⟩
    have hs1 : s1.tokens.length ≤ s0.tokens.length := by
      have h' := nextTok_tokens_le s0; rw [h1] at h'; exact h'
    simp only [h1, PState.unexpectedEOI, PState.unexpectedValue, tokens_addErrorAt']
    omega
  | some first =>
    dsimp only
    split
    · rcases h1 : s0.nextTok with ⟨_, s1⟩
      have hs1 : s1.tokens.length ≤ s0.tokens.length := by
        have h' := nextTok_tokens_le s0; rw [h1] at h'; exact h'
      simp only [h1]
      ((try dsimp only); omega)
    · rcases h1 : readStatementList n po s0 with ⟨⟨status, res⟩, s1⟩
      have hs1 : s1.tokens.length ≤ s0.tokens.length := by
        have h' := (parserMono n).2.2.2.1 po s0; rw [h1] at h'; exact h'
      simp only [h1]
      split
      · ((try dsimp only); omega)
      · rcases h2 : s1.expect [TKN_BLOCK_CLS] with ⟨⟨clsStat, _⟩, s2⟩
        have hs2 : s2.tokens.length ≤ s1.tokens.length := by
          have h' := expect_tokens_le s1 [TKN_BLOCK_CLS]; rw [h2] at h'; exact h'
        simp only [h2]
        split
        · ((try dsimp only); omega)
        · split <;> ((try dsimp only); omega)

/-- The function `_readProgramIntro` either strictly consumes tokens or — exactly when
the program opens directly with `{` — leaves the token list untouched and
reports `ERROR`. -/
theorem readProgramIntro_cases (s : PState) (h : s.tokens ≠ []) :
    ((readProgramIntro s).2.tokens.length < s.tokens.length) ∨
    ((readProgramIntro s).2.tokens = s.tokens ∧ (readProgramIntro s).1.1 = .ERROR) := by
  rw [readProgramIntro]
  cases hpk : s.peek with
  | none =>
    exfalso
    apply h
    unfold PState.peek at hpk
    exact List.head?_eq_none_iff.mp hpk
  | some name =>
    dsimp only
    split
    · left
      rcases h0 : s.nextTok with ⟨_, s0⟩
      have hs0 : s0.tokens.length < s.tokens.length := by
        have h' := nextTok_tokens_lt s h; rw [h0] at h'; exact h'
      simp only [h0]
      rcases h1 : readInput (s0.addErrorAt name.pos "Unexpected token: Missing program name")
        with ⟨⟨inputStatus, input⟩, s1⟩
      have hs1 : s1.tokens.length ≤ s0.tokens.length := by
        have h' := readInput_tokens_le
          (s0.addErrorAt name.pos "Unexpected token: Missing program name")
        rw [h1] at h'
        simpa [tokens_addErrorAt'] using h'
      simp only [h1]
      split <;> ((try dsimp only); omega)
    · split
      · right
        constructor
        · simp [PState.unexpectedTokenAt, tokens_addErrorAt']
        · rfl
      · left
        rcases h0 : s.nextTok with ⟨_, s0⟩
        have hs0 : s0.tokens.length < s.tokens.length := by
          have h' := nextTok_tokens_lt s h; rw [h0] at h'; exact h'
        simp only [h0]
        rcases h1 : readRead s0 with ⟨⟨inputStatus, inputVar⟩, s1⟩
        have hs1 : s1.tokens.length ≤ s0.tokens.length := by
          have h' := readRead_tokens_le s0; rw [h1] at h'; exact h'
        simp only [h1]
        split
        · ((try dsimp only); omega)
        · split <;> ((try dsimp only); omega)

/-- The function `_readProgram` always strictly consumes tokens from a non-empty token
list (it consumes the program name, or — when the program opens with `{` —
the block parser consumes the brace). -/
theorem readProgram_tokens_lt (n : Nat) (po : Bool) (s : PState) (h : s.tokens ≠ []) :
    ((readProgram (n+1) po s).2.tokens.length < s.tokens.length) := by
  rw [readProgram]
  rcases h0 : readProgramIntro s with ⟨⟨progInStatus, name, input⟩, s0⟩
  have hcase := readProgramIntro_cases s h
  rw [h0] at hcase
  dsimp only at hcase
  simp only [h0]
  split
  · rcases h1 : readBlock (n+1) po s0 with ⟨⟨bodyStatus, body⟩, s2⟩
    have hs2 : s2.tokens.length < s.tokens.length := by
      rcases hcase with hlt | ⟨heq, hERR⟩
      · have h' := (parserMono (n+1)).2.2.2.2.2.2.2.2 po s0
        rw [h1] at h'
        dsimp only at h'
        omega
      · have hne : s0.tokens ≠ [] := by rw [heq]; exact h
        have h' := readBlock_tokens_lt n po s0 hne
        rw [h1] at h'
        dsimp only at h'
        rw [heq] at h'
        exact h'
    simp only [h1]
    split
    · rcases h2 : readProgramOutro s2 with ⟨⟨outputStatus, output⟩, s3⟩
      have hs3 : s3.tokens.length ≤ s2.tokens.length := by
        have h' := readProgramOutro_tokens_le s2; rw [h2] at h'; exact h'
      rcases h3 : s3.nextTok with ⟨final, s4⟩
      have hs4 : s4.tokens.length ≤ s3.tokens.length := by
        have h' := nextTok_tokens_le s3; rw [h3] at h'; exact h'
      simp only [h2, h3]
      cases final with
      | none => dsimp only; split <;> ((try dsimp only); omega)
      | some final =>
        dsimp only
        simp only [PState.unexpectedTokenCustom, PState.addError, tokens_addErrorAt']
        split <;> ((try dsimp only); (try simp only [tokens_addErrorAt']); omega)
    · dsimp only
      split <;> ((try dsimp only); omega)
  · rcases hcase with hlt | ⟨heq, hERR⟩
    · dsimp only
      split <;> ((try dsimp only); omega)
    · rename_i hEOI
      simp only [ne_eq, not_not] at hEOI
      rw [hEOI] at hERR
      exact absurd hERR (by simp)

/-- Conversion: the first component returned by the parser entry point is
the program produced by `_readProgram`. -/
theorem parser_fst (tokens : List Token) (props : Option ParserOpts) :
    (parser tokens props).1 = (parserRun tokens props).1 := rfl

/-- Conversion: the parser entry point runs `_readProgram` on a fresh
state manager wrapping the caller's token list. -/
theorem parserRun_eq (tokens : List Token) (props : Option ParserOpts) :
    parserRun tokens props = readProgram (parserFuel tokens)
      ((props.map (fun p => p.pureOnly)).getD false) (PState.init tokens) := rfl

/-- A program marked complete by `_readProgram` has its name, input and
output fields present (the final guard requires all three). -/
theorem readProgram_complete_fields (fuel : Nat) (po : Bool) (s : PState)
    (h : (readProgram fuel po s).1.complete = true) :
    (readProgram fuel po s).1.name.isSome ∧ (readProgram fuel po s).1.input.isSome ∧
    (readProgram fuel po s).1.output.isSome := by
  revert h
  simp only [readProgram]
  repeat' split
  all_goals simp_all

theorem set_append_right {α : Type} (l1 l2 : List α) (pc : Nat) (c : α) (h : l1.length ≤ pc) :
    (l1 ++ l2).set pc c = l1 ++ l2.set (pc - l1.length) c := by
  induction l1 generalizing pc with
  | nil => simp
  | cons x xs ih =>
    cases pc with
    | zero => simp at h
    | succ m =>
      simp only [List.cons_append, List.set_cons_succ, List.length_cons]
      rw [ih m (by simpa using h)]
      have he : m + 1 - (xs.length + 1) = m - xs.length := by omega
      rw [he]

theorem setKeepsFront {α : Type} (h0 h : List α) (pc : Nat) (c : α)
    (hp : h0 <+: h) (hpc : h0.length ≤ pc) : h0 <+: h.set pc c := by
  obtain ⟨tail, rfl⟩ := hp
  rw [set_append_right h0 tail pc c hpc]
  exact List.prefix_append h0 _

theorem hreplaceArgFront (h0 : Heap) (v : BinaryTree) (rest : List HFrame) (h : Heap)
    (rest' : List HFrame) (h' : Heap) (hp : h0 <+: h)
    (hfr : ∀ f ∈ rest, frameCellsOK h0.length f)
    (he : hreplaceArg v rest h = some (rest', h')) :
    (h0 <+: h') ∧ ∀ f ∈ rest', frameCellsOK h0.length f := by
  unfold hreplaceArg at he
  split at he
  · rename_i op pc rest2
    rcases hg : h.get? pc with _ | cell
    · rw [hg] at he; simp at he
    · rw [hg] at he
      dsimp only at he
      rcases hrf : hreplaceFirst cell v with _ | c'
      · rw [hrf] at he; exact Option.noConfusion he
      · rw [hrf] at he
        simp only [Option.map] at he
        injection he with he
        injection he with he1 he2
        subst he1; subst he2
        have hpc : h0.length ≤ pc := hfr _ (List.mem_cons_self _ _)
        exact ⟨setKeepsFront h0 h pc c' hp hpc, hfr⟩
  · rename_i pc rest2
    rcases hg : h.get? pc with _ | cell
    · rw [hg] at he; simp at he
    · rw [hg] at he
      dsimp only at he
      rcases hrf : hreplaceFirst cell v with _ | c'
      · rw [hrf] at he; exact Option.noConfusion he
      · rw [hrf] at he
        simp only [Option.map] at he
        injection he with he
        injection he with he1 he2
        subst he1; subst he2
        have hpc : h0.length ≤ pc := hfr _ (List.mem_cons_self _ _)
        exact ⟨setKeepsFront h0 h pc c' hp hpc, hfr⟩
  · simp at he

theorem copyH_spec (h0 : Heap) (el : HElem) (h : Heap) (hp : h0 <+: h) :
    (h0 <+: (copyH el h).2) ∧ frameCellsOK h0.length (copyH el h).1 := by
  cases el with
  | lit t => exact ⟨hp, trivial⟩
  | identH tok => exact ⟨hp, trivial⟩
  | treeH t => exact ⟨hp, trivial⟩
  | opH op c =>
    refine ⟨hp.trans (List.prefix_append _ _), ?_⟩
    exact hp.length_le
  | equalH c => exact ⟨hp, trivial⟩
  | missing => exact ⟨hp, trivial⟩

theorem hEvalLoopFront (store : Store) (h0 : Heap) :
    ∀ (fuel : Nat) (stack : List HFrame) (h : Heap),
      h0 <+: h → (∀ f ∈ stack, frameCellsOK h0.length f) →
      h0 <+: (hEvalLoop store fuel stack h).2 := by
  intro fuel
  induction fuel with
  | zero => intro stack h hp _; exact hp
  | succ n ih =>
    intro stack h hp hfr
    simp only [hEvalLoop]
    split
    · exact hp
    · split
      · exact hp
      · rename_i stackOrig curr rest hlen
        have hcurr : frameCellsOK h0.length curr := hfr _ (List.mem_cons_self _ _)
        have hrest : ∀ f ∈ rest, frameCellsOK h0.length f :=
          fun f hf => hfr _ (List.mem_cons_of_mem _ hf)
        cases curr with
        | opF op c =>
          rcases hg : h.get? c with _ | args
          · simp only [hg]; exact hp
          · simp only [hg]
            rcases hfn : hFirstNonLit args with _ | oel
            · simp only [hfn]
              rcases hap : happlyOp op.value args with _ | val
              · simp only [hap]; exact hp
              · simp only [hap]
                rcases hra : hreplaceArg val rest h with _ | pr
                · simp only [hra]; exact hp
                · rcases pr with ⟨rest', h'⟩
                  simp only [hra]
                  have hkey := hreplaceArgFront h0 val rest h rest' h' hp hrest hra
                  exact ih rest' h' hkey.1 hkey.2
            · cases oel with
              | none => simp only [hfn]; exact hp
              | some el =>
                simp only [hfn]
                have hcs := copyH_spec h0 el h hp
                refine ih ((copyH el h).1 :: .opF op c :: rest) (copyH el h).2 hcs.1 ?_
                intro f hf
                rcases hf with _ | hf
                · exact hcs.2
                · rename_i hf'
                  rcases hf' with _ | hf''
                  · exact hcurr
                  · rename_i hm
                    exact hrest _ hm
        | identF tok =>
          rcases hra : hreplaceArg (if tok.value.eqStr "nil" = true then BinaryTree.nil
              else (store.get tok.value).getD .nil) rest h with _ | pr
          · simp only [hra]; exact hp
          · rcases pr with ⟨rest', h'⟩
            simp only [hra]
            have hkey := hreplaceArgFront h0 _ rest h rest' h' hp hrest hra
            exact ih rest' h' hkey.1 hkey.2
        | rootH c => exact hp
        | treeF t => exact hp
        | equalF c => exact hp
        | litF t => exact hp
        | nullF => exact hp



/-! ## Claim theorems -/

/-- C1 (counterexample).  The completeness lattice fails: parsing
`prog read Z { while cons ; X { } } write Z` yields an AST with
`complete = true` although the error list is non-empty and the loop's
condition node has `complete = false` — all three legs of the claimed
equivalence are broken at once (the `while` branch of `_readStmt` checks
only `cond !== null`, not the condition's completeness, and the failed
sub-expression has already recorded an error). -/
theorem parser_completeness_lattice_fails :
    (parser whileBadCondToks none).1.complete = true ∧
    (parser whileBadCondToks none).2 ≠ [] ∧
    progAllComplete (parser whileBadCondToks none).1 = false := by decide

/-- C1 (amended).  Of the claimed three-way equivalence only the upward
direction survives: if every node of the returned AST (the root included)
has `complete = true` then `ast.complete = true`; and whenever
`ast.complete = true` the program's name, input and output are all
present.  The other directions are refuted by the counterexample. -/
theorem parser_completeness_upward :
    ∀ (tokens : List Token) (props : Option ParserOpts),
      (progAllComplete (parser tokens props).1 = true →
        (parser tokens props).1.complete = true) ∧
      ((parser tokens props).1.complete = true →
        (parser tokens props).1.name.isSome ∧ (parser tokens props).1.input.isSome ∧
          (parser tokens props).1.output.isSome) := by
  intro tokens props
  constructor
  · intro hall
    simp only [progAllComplete, Bool.and_eq_true] at hall
    exact hall.1
  · intro hc
    rw [parser_fst, parserRun_eq] at hc ⊢
    exact readProgram_complete_fields _ _ _ hc

/-- C1 (witness): the amended claim applied to the clean parse of
`prog read X { Y := X } write Y`. -/
theorem parser_completeness_upward_witness :
    (parser progSimpleToks none).1.complete = true ∧
    (parser progSimpleToks none).1.name.isSome :=
  ⟨(parser_completeness_upward progSimpleToks none).1 (by decide),
   ((parser_completeness_upward progSimpleToks none).2 (by decide)).1⟩

/-- C2 (counterexample).  Parsing mutates the caller's token list: the
state manager wraps the caller's array and `_next` pops it with
`shift()`.  After parsing `prog read X { Y := X } write Y` the caller's
list is empty, and invoking the parser again on that mutated list yields
a different error list than the first invocation. -/
theorem parser_token_list_mutated :
    (parserRun progSimpleToks none).2.tokens = [] ∧ progSimpleToks ≠ [] ∧
    (parser ((parserRun progSimpleToks none).2.tokens) none).2 ≠
      (parser progSimpleToks none).2 := by decide

/-- C2 (amended).  The parser is deterministic as a mathematical function
of the token-list value and options (it is embedded as a pure function of
them), but it consumes the caller's token list: for every non-empty token
list, strictly fewer tokens remain in the caller's array after parsing,
so repeated invocation on the same array is not invocation on the same
token list. -/
theorem parser_consumes_tokens :
    ∀ (tokens : List Token) (props : Option ParserOpts), tokens ≠ [] →
      (parserRun tokens props).2.tokens.length < tokens.length := by
  intro tokens props h
  rw [parserRun_eq]
  have hf : parserFuel tokens = (4 * tokens.length + 15) + 1 := rfl
  rw [hf]
  exact readProgram_tokens_lt _ _ _ h

/-- C2 (witness): the consumption theorem applied to the ten-token
program `prog read X { Y := X } write Y`. -/
theorem parser_consumes_tokens_witness :
    (parserRun progSimpleToks none).2.tokens.length < progSimpleToks.length :=
  parser_consumes_tokens progSimpleToks none (by decide)

/-- C3.  The interpreter's expression evaluator satisfies the semantic
equations: with `X` bound to `a` and `Y` bound to `b`,
`hd (cons X Y)` evaluates to `a`, `tl (cons X Y)` to `b`, and `hd nil`
and `tl nil` both evaluate to `nil` — returning a value, never an
error. -/
theorem evalExpr_semantic_equations :
    ∀ a b : BinaryTree,
      evalExpr (storeXY a b) (.operation true (opTok TKN_HD 4) [some consXY]) = some a ∧
      evalExpr (storeXY a b) (.operation true (opTok TKN_TL 4) [some consXY]) = some b ∧
      evalExpr (storeXY a b)
        (.operation true (opTok TKN_HD 4) [some (.identifier tokNilId)]) = some .nil ∧
      evalExpr (storeXY a b)
        (.operation true (opTok TKN_TL 4) [some (.identifier tokNilId)]) = some .nil := by
  intro a b
  exact ⟨rfl, rfl, rfl, rfl⟩


/-- C4.  The spec's scenario 3: parsing the `add` program yields no
errors and a complete AST, and interpreting it on the input
`(encode 3, encode 2)` yields `encode 5`; moreover the loop frame, when
its condition evaluates non-`nil`, re-pushes itself and then pushes its
body block on top, so the body runs first and the condition is
re-tested. -/
theorem interpreter_add_program :
    ((parser addProgramToks none).2 = [] ∧
      (parser addProgramToks none).1.complete = true ∧
      (Interp.new (parser addProgramToks none).1 (.node (encodeNum 3) (encodeNum 2))).bind
        (fun i => (Interp.run 1000 i).map (fun p => p.1)) = some (encodeNum 5)) ∧
    (∀ (fuel : Nat) (cp : Bool) (ce : Expr) (body : List (Option Cmd)) (rest : List Frame)
        (store : Store) (v : BinaryTree),
      evalExpr store ce = some v → v ≠ .nil →
      runLoop (fuel + 1) (.cmd (some (.loop cp (some ce) body)) :: rest) store =
        runLoop fuel (.block body :: .cmd (some (.loop cp (some ce) body)) :: rest) store) := by
  constructor
  · exact ⟨by decide, by decide, by decide⟩
  · intro fuel cp ce body rest store v hv hnnil
    rw [runLoop]
    simp only [hv]
    rw [if_pos hnnil]

/-- C4 (witness): the loop-step conjunct applied to a concrete loop
frame whose condition evaluates to `encode 1`. -/
theorem interpreter_add_program_witness :
    runLoop 6 [.cmd (some (.loop true (some (.identifier tokX)) []))]
        (storeXY (encodeNum 1) .nil) =
      runLoop 5 [.block [], .cmd (some (.loop true (some (.identifier tokX)) []))]
        (storeXY (encodeNum 1) .nil) :=
  interpreter_add_program.2 5 true (.identifier tokX) [] [] (storeXY (encodeNum 1) .nil)
    (encodeNum 1) rfl (by decide)

/-- C5 (counterexample).  A trailing semicolon inside a block is NOT
tolerated: parsing `prog read X { Y := X ; } write Y` records errors and
the AST is not complete (after consuming the `;` the statement-list loop
attempts another statement, which consumes the `}` and fails). -/
theorem trailing_semicolon_rejected :
    (parser trailingSemiToks none).2 ≠ [] ∧
    (parser trailingSemiToks none).1.complete = false := by decide

/-- C5 (amended).  A trailing semicolon is not tolerated: after the list
parser consumes the `;` it calls `_readStmt` on the closing brace, and
`_readStmt` invoked on a `}` token always consumes the brace, reports
"Expected if while or an assignment statement", and returns `ERROR` with
a null statement (which the list parser appends before draining further
tokens in recovery). -/
theorem readStmt_on_close_brace :
    ∀ (fuel : Nat) (po : Bool) (s : PState) (t : Token) (rest : List Token),
      s.tokens = t :: rest → t.value = .str TKN_BLOCK_CLS → t.type = .symbol →
      readStmt (fuel + 1) po s =
        ((.ERROR, none),
          { tokens := rest,
            errors := s.errors ++
              [{ position := t.pos,
                 message := "Unexpected token: Expected if while or an assignment statement" }],
            pos := t.pos, lastToken := some t }) := by
  intro fuel po s t rest ht hv htype
  rw [readStmt]
  have hnt : s.nextTok = (some t, { s with tokens := rest, pos := t.pos, lastToken := some t }) := by
    unfold PState.nextTok
    rw [ht]
  simp only [hnt]
  have h1 : t.is TKN_IF = false := by simp [Token.is, hv, TokenValue.eqStr, TKN_IF, TKN_BLOCK_CLS]
  have h2 : t.is TKN_WHILE = false := by
    simp [Token.is, hv, TokenValue.eqStr, TKN_WHILE, TKN_BLOCK_CLS]
  have h3 : t.is TKN_SWITCH = false := by
    simp [Token.is, hv, TokenValue.eqStr, TKN_SWITCH, TKN_BLOCK_CLS]
  have h4 : (t.type = TokenType.identifier) = False := by simp [htype]
  simp only [h1, h2, h3, h4, Bool.false_eq_true, if_false, false_and, and_false]
  simp [PState.unexpectedTokenCustom, PState.addError, PState.addErrorAt, TKN_IF, TKN_WHILE]

/-- C5 (witness): the amended claim applied to a state holding exactly
one `}` token. -/
theorem readStmt_on_close_brace_witness :
    readStmt 1 false (PState.init [symTok TKN_BLOCK_CLS 0]) =
      ((.ERROR, none),
        PState.mk [] [ErrRec.mk (Pos.mk 0 0)
          "Unexpected token: Expected if while or an assignment statement"]
          (Pos.mk 0 0) (some (symTok TKN_BLOCK_CLS 0))) :=
  readStmt_on_close_brace 0 false _ (symTok TKN_BLOCK_CLS 0) [] rfl rfl rfl

/-- C6.  An `if` statement whose condition and if-block parse without
error and that is followed by a token other than `else` produces a
complete conditional node with an empty else branch, with no error
recorded and no token consumed for the absent else (the final state is
exactly the state after the if-block). -/
theorem if_without_else_no_error :
    ∀ (fuel : Nat) (po : Bool) (s : PState) (tIf : Token) (rest : List Token)
      (cond : Expr) (s1 : PState) (blk : List (Option Cmd)) (s2 : PState) (t : Token),
      s.tokens = tIf :: rest → tIf.value = .str TKN_IF →
      readExpr fuel po { s with tokens := rest, pos := tIf.pos, lastToken := some tIf } =
        (some cond, s1) →
      cond.okArg = true →
      readBlock fuel po s1 = ((.OK, blk), s2) →
      s2.tokens.head? = some t → t.value.eqStr TKN_ELSE = false →
      readStmt (fuel + 1) po s = ((.OK, some (.cond true (some cond) blk [])), s2) := by
  intro fuel po s tIf rest cond s1 blk s2 t ht hv hexpr hok hblk hpeek hne
  cases fuel with
  | zero =>
    rw [readExpr] at hexpr
    exact absurd hexpr (by simp)
  | succ n =>
    rw [readStmt]
    have hnt : s.nextTok =
        (some tIf, { s with tokens := rest, pos := tIf.pos, lastToken := some tIf }) := by
      unfold PState.nextTok
      rw [ht]
    simp only [hnt]
    have h1 : tIf.is TKN_IF = true := by simp [Token.is, hv, TokenValue.eqStr]
    simp only [h1, if_true]
    rw [hexpr, hblk]
    have helse : readElse (n + 1) po s2 = ((.OK, []), s2) := by
      rw [readElse]
      have hpk : s2.peek = some t := hpeek
      simp only [hpk]
      have h2 : t.is TKN_ELSE = false := hne
      simp only [h2]
      simp
    rw [helse]
    have hco : condOk (some cond) = true := hok
    simp [hco]

/-- C6 (witness): the theorem applied to the statement `if X { }`
followed by a closing brace. -/
theorem if_without_else_no_error_witness :
    readStmt 21 false (PState.init ifStmtToks) =
      ((.OK, some (.cond true (some (.identifier (idTok "X" 1))) [] [])),
        PState.mk [symTok TKN_BLOCK_CLS 4] [] (Pos.mk 0 3)
          (some (symTok TKN_BLOCK_CLS 3))) :=
  if_without_else_no_error 20 false (PState.init ifStmtToks) (symTok TKN_IF 0)
    (List.tail ifStmtToks) (.identifier (idTok "X" 1))
    (PState.mk [symTok TKN_BLOCK_OPN 2, symTok TKN_BLOCK_CLS 3, symTok TKN_BLOCK_CLS 4]
      [] (Pos.mk 0 1) (some (idTok "X" 1)))
    []
    (PState.mk [symTok TKN_BLOCK_CLS 4] [] (Pos.mk 0 3) (some (symTok TKN_BLOCK_CLS 3)))
    (symTok TKN_BLOCK_CLS 4) rfl rfl rfl rfl rfl rfl rfl

/-- C7.  An identifier with no binding in the store evaluates to `nil`,
and `run()` returns the final store's binding of the output identifier
with `nil` as the default — the value is
`(store.get output).getD nil` whenever the command stack runs to
completion. -/
theorem unset_identifier_and_output_default :
    (∀ (store : Store) (tok : Token), store.get tok.value = none →
      evalExpr store (.identifier tok) = some .nil) ∧
    (∀ (i : Interp) (fuel : Nat) (store' : Store) (o : Token),
      i.prog.output = some o →
      runLoop fuel [.block i.prog.body] i.store = some store' →
      Interp.run fuel i = some ((store'.get o.value).getD .nil, { i with store := store' })) := by
  constructor
  · intro store tok hget
    have hv : (if tok.value.eqStr "nil" = true then BinaryTree.nil
        else (store.get tok.value).getD BinaryTree.nil) = BinaryTree.nil := by
      rw [hget]
      split <;> rfl
    unfold evalExpr
    have hfuel : evalFuel (.identifier tok) = 6 := rfl
    rw [hfuel]
    simp only [copyExpr]
    rw [evalLoop]
    simp only [List.length_cons, List.length_nil]
    rw [if_neg (by omega)]
    simp only [replaceArg, replaceFirst, hv]
    rfl
  · intro i fuel store' o hout hrl
    unfold Interp.run
    rw [hrl, hout]

/-- C7 (witness): an unbound `X` in the empty store evaluates to `nil`,
and running `prog read X { } write Y` leaves `Y` unset so the result
defaults to `nil`. -/
theorem unset_identifier_and_output_default_witness :
    evalExpr Store.empty (.identifier tokX) = some .nil ∧
    Interp.run 2 (Interp.mk (parser emptyBodyToks none).1
        (Store.empty.set (.str "X") (.node .nil .nil))) =
      some (((Store.empty.set (TokenValue.str "X") (.node .nil .nil)).get
          ((idTok "Y" 6).value)).getD .nil,
        Interp.mk (parser emptyBodyToks none).1
          (Store.empty.set (.str "X") (.node .nil .nil))) :=
  ⟨unset_identifier_and_output_default.1 Store.empty tokX rfl,
   unset_identifier_and_output_default.2
     (Interp.mk (parser emptyBodyToks none).1 (Store.empty.set (.str "X") (.node .nil .nil)))
     2 (Store.empty.set (.str "X") (.node .nil .nil)) (idTok "Y" 6) (by decide) rfl⟩

/-- C10.  The store is populated with the input binding only in the
constructor, and `run()` threads the instance's current store rather
than resetting it: the instance returned by `run` carries the final
store of the execution, and a second `run` on the instance returned by a
first `run` of `p read X { X := cons nil X } write X` on `nil` yields
`encode 2`, not the `encode 1` a fresh store would give. -/
theorem interpreter_store_persists :
    (∀ (p : Prog) (input : BinaryTree) (itok : Token), p.input = some itok →
      Interp.new p input = some (Interp.mk p (Store.empty.set itok.value input))) ∧
    (∀ (i : Interp) (fuel : Nat) (r : BinaryTree) (i' : Interp),
      Interp.run fuel i = some (r, i') →
      i'.prog = i.prog ∧ runLoop fuel [.block i.prog.body] i.store = some i'.store) ∧
    (((Interp.new (parser consGrowToks none).1 .nil).bind (fun i =>
        (Interp.run 100 i).bind (fun p => (Interp.run 100 p.2).map (fun q => (p.1, q.1))))) =
      some (encodeNum 1, encodeNum 2) ∧ encodeNum 2 ≠ encodeNum 1) := by
  refine ⟨?_, ?_, by decide, by decide⟩
  · intro p input itok hin
    unfold Interp.new
    rw [hin]
    rfl
  · intro i fuel r i' hrun
    unfold Interp.run at hrun
    rcases hrl : runLoop fuel [.block i.prog.body] i.store with _ | store'
    · rw [hrl] at hrun; exact absurd hrun (by simp)
    · rw [hrl] at hrun
      rcases hout : i.prog.output with _ | o
      · rw [hout] at hrun; exact absurd hrun (by simp)
      · rw [hout] at hrun
        dsimp only at hrun
        injection hrun with hrun
        injection hrun with hr hi
        constructor
        · rw [← hi]
        · rw [← hi]

/-- C10 (witness): the constructor conjunct applied to the parsed
`cons`-growing program, and the run conjunct applied to its first run. -/
theorem interpreter_store_persists_witness :
    (Interp.new (parser consGrowToks none).1 .nil =
      some (Interp.mk (parser consGrowToks none).1
        (Store.empty.set (TokenValue.str "X") .nil))) ∧
    runLoop 100 [.block (parser consGrowToks none).1.body]
        (Store.empty.set (TokenValue.str "X") .nil) =
      some (Store.empty.set (TokenValue.str "X") (encodeNum 1)) :=
  ⟨interpreter_store_persists.1 (parser consGrowToks none).1 .nil (idTok "X" 2) (by decide),
   (interpreter_store_persists.2.1
     (Interp.mk (parser consGrowToks none).1 (Store.empty.set (TokenValue.str "X") .nil))
     100 (encodeNum 1)
     (Interp.mk (parser consGrowToks none).1
       (Store.empty.set (TokenValue.str "X") (encodeNum 1)))
     rfl).2⟩


/-- C9.  Modelled from the spec (the `progAsData` implementation is not
among the provided sources): `display_pad` applied to the PAD value
`[0, [[':=', 1, ['quote','nil']]], 1]` with the HWHILE format yields the
exact string fixed by the spec and the repository's test — `@`-marked
symbolic tokens, a newline after every top-level list element, and
four-space indentation. -/
theorem displayPad_hwhile_example :
    displayPad padExample HWHILE_DISPLAY_FORMAT =
      "[0, [\n    [@:=, 1, [@quote, nil]]\n], 1]\n" := rfl

/-- C8.  Evaluating any expression leaves the program AST unchanged: in
the heap model — where every argument array of the AST and every array
created by `_copyExpr` is an explicit heap cell — the AST's cells form a
prefix of the final heap that evaluation never modifies, because argument
lists are cloned into fresh cells when pushed and
`_replaceArgWithLiteral` writes only the popped frame's own cell. -/
theorem hEvalExpr_preserves_ast_heap :
    ∀ (store : Store) (e : Expr), astHeap e <+: (hEvalExpr store e).2 := by
  intro store e
  unfold hEvalExpr astHeap
  rcases hl : loadExpr e [] with ⟨he, h0⟩
  simp only [hl]
  have hp1 : h0 <+: h0 ++ [[he]] := List.prefix_append _ _
  have hcs := copyH_spec h0 he (h0 ++ [[he]]) hp1
  have hmain := hEvalLoopFront store h0 (evalFuel e)
    [(copyH he (h0 ++ [[he]])).1, .rootH h0.length]
    (copyH he (h0 ++ [[he]])).2 hcs.1 ?frames
  case frames =>
    intro f hf
    simp only [List.mem_cons, List.not_mem_nil, or_false] at hf
    rcases hf with rfl | rfl
    · exact hcs.2
    · exact le_refl _
  rcases hev : hEvalLoop store (evalFuel e)
      [(copyH he (h0 ++ [[he]])).1, .rootH h0.length] (copyH he (h0 ++ [[he]])).2
      with ⟨res, h'⟩
  rw [hev] at hmain
  simp only [hev]
  cases res with
  | none => exact hmain
  | some stack =>
    dsimp only
    split
    · split <;> exact hmain
    · exact hmain

/-- Validation of the spec-modelled display: the repository's
operations display test (`should correctly convert operations`)
reproduced exactly. -/
theorem displayPad_ops_test :
    displayPad padOpsExample HWHILE_DISPLAY_FORMAT =
      "[0, [\n    [@:=, 1, [@hd, [@var, 0]]],\n    [@:=, 2, [@tl, [@var, 0]]],\n" ++
        "    [@:=, 3, [@cons, [@var, 1], [@var, 2]]]\n], 3]\n" := by decide

/-- Validation of the spec-modelled display: the repository's nested
while-and-if display test reproduced exactly, in both formats. -/
theorem displayPad_while_if_test :
    displayPad padWhileExample HWHILE_DISPLAY_FORMAT =
      "[0, [\n    [@:=, 1, [@quote, nil]],\n    [@while, [@var, 0], [\n" ++
        "        [@:=, 1, [@cons, [@quote, nil], [@var, 1]]],\n" ++
        "        [@if, [@hd, [@var, 0]], [\n            [@:=, 0, [@hd, [@var, 0]]]\n" ++
        "        ], [\n            [@:=, 0, [@tl, [@var, 0]]]\n        ]]\n    ]]\n], 1]\n" ∧
    displayPad padWhileExample PURE_DISPLAY_FORMAT =
      "[0, [\n    [:=, 1, [quote, nil]],\n    [while, [var, 0], [\n" ++
        "        [:=, 1, [cons, [quote, nil], [var, 1]]],\n" ++
        "        [if, [hd, [var, 0]], [\n            [:=, 0, [hd, [var, 0]]]\n" ++
        "        ], [\n            [:=, 0, [tl, [var, 0]]]\n        ]]\n    ]]\n], 1]\n" := by
  set_option maxRecDepth 4096 in
  exact ⟨by decide, by decide⟩
